import Mathlib

/-!
# Mandelbrot renderers: `fractal.c`, `fractalthread.c`, `fractaltask.c`

A shallow embedding of the three programs and the properties proved about it.

Conventions of the embedding.

* `double` values are rationals and every floating-point operation is taken
  exactly (`ℚ`); a `double complex` is a pair of rationals (`Cplx`).
* `int` values are `Int`; surface sizes, worker counts and loop indices that
  the code only ever uses non-negatively are `Nat`.
* `cabs(z) < 4` is the test `re² + im² < 16` (see `cabs_lt_four_iff`), and
  `cpow(z,2)` is the exact square.
* A `while`/`for` loop is a structurally recursive function whose first
  numeric argument counts the iterations still allowed.
* The calls `gfx_color(r,g,b); gfx_point(i,j)` made under the mutex are one
  `Write`; a surface is the list of the writes made so far, oldest first.
* A pass of the workers is a schedule: a list of worker indices, each entry
  one turn of that worker. In `Task.run` a turn is one claim and the drawing
  of the claimed tile; in `Task.exec` and `Thread.exec` a turn is one
  statement, the mutex is the index of its owner, and `gfx_color` and
  `gfx_point` are separate statements acting on the current colour of the
  graphics library (`Task.exec_inv` and `Thread.band_exec_inv` show that every
  point is then drawn with the colour of its own pixel).
-/

namespace Fractal

/-! ## Part 1. Definitions -/

/-- A `double complex` value with exact components. -/
structure Cplx where
  re : ℚ
  im : ℚ
deriving DecidableEq

/-- The value of `cpow(z,2)`: the square of `z`. -/
def cpow2 (z : Cplx) : Cplx :=
  ⟨z.re * z.re - z.im * z.im, z.re * z.im + z.im * z.re⟩

/-- Complex addition, the `+ alpha` of the loop body. -/
def cadd (z w : Cplx) : Cplx :=
  ⟨z.re + w.re, z.im + w.im⟩

/-- The squared modulus; `cabs(z) < 4` is `normSq z < 16`. -/
def normSq (z : Cplx) : ℚ :=
  z.re * z.re + z.im * z.im

/-- The loop of `compute_point`:
`while( cabs(z)<4 && iter < max ) { z = cpow(z,2) + alpha; iter++; }`
followed by `return iter`. The first numeric argument bounds the number of
iterations still to run. -/
def compute_loop (alpha : Cplx) (max : Int) : Nat → Cplx → Int → Int
  | 0, _, iter => iter
  | fuel + 1, z, iter =>
    if normSq z < 16 ∧ iter < max then
      compute_loop alpha max fuel (cadd (cpow2 z) alpha) (iter + 1)
    else iter

/-- The function `compute_point(x, y, max)`, identical in the three programs:
`z = 0`, `alpha = x + I*y`, `iter = 0`, then the loop. `max.toNat` iterations
always suffice (`compute_loop_fuel`). -/
def compute_point (x y : ℚ) (max : Int) : Int :=
  compute_loop ⟨x, y⟩ max max.toNat ⟨0, 0⟩ 0

/-- The orbit `z_0 = 0`, `z_{n+1} = z_n^2 + c`. -/
def orbit (c : Cplx) : Nat → Cplx
  | 0 => ⟨0, 0⟩
  | n + 1 => cadd (cpow2 (orbit c n)) c

/-- The escape time in the words of the specification, for a squared bailout
radius `R`: `r` is the first `n ≤ max` with `|z_n|² ≥ R`, or `max` when there
is no such `n`. -/
def IsEscapeTime (R : ℚ) (c : Cplx) (max r : Int) : Prop :=
  (∃ n : Nat, (n : Int) ≤ max ∧ R ≤ normSq (orbit c n) ∧
      (∀ m : Nat, m < n → normSq (orbit c m) < R) ∧ r = (n : Int)) ∨
  ((∀ n : Nat, (n : Int) ≤ max → normSq (orbit c n) < R) ∧ r = max)

/-! ### The navigation commands (`fractalthread.c` and `fractaltask.c`) -/

/-- The arguments of one call
`create_threads(xmin, xmax, ymin, ymax, maxiter, num_threads)`, that is, one
render pass. -/
structure RenderCall where
  xmin : ℚ
  xmax : ℚ
  ymin : ℚ
  ymax : ℚ
  maxiter : Int
  num_threads : Nat
deriving DecidableEq

/-- The function `move_up`: the render pass it requests. -/
def move_up (xmin xmax ymin ymax : ℚ) (maxiter : Int) (num_threads : Nat) : RenderCall :=
  let yrange := ymax - ymin
  let ymin := ymin - yrange / 4
  let ymax := ymax - yrange / 4
  ⟨xmin, xmax, ymin, ymax, maxiter, num_threads⟩

/-- The function `move_down`: the render pass it requests. -/
def move_down (xmin xmax ymin ymax : ℚ) (maxiter : Int) (num_threads : Nat) : RenderCall :=
  let yrange := ymax - ymin
  let ymin := ymin + yrange / 4
  let ymax := ymax + yrange / 4
  ⟨xmin, xmax, ymin, ymax, maxiter, num_threads⟩

/-- The function `move_left`: the render pass it requests. -/
def move_left (xmin xmax ymin ymax : ℚ) (maxiter : Int) (num_threads : Nat) : RenderCall :=
  let xrange := xmax - xmin
  let xmin := xmin - xrange / 4
  let xmax := xmax - xrange / 4
  ⟨xmin, xmax, ymin, ymax, maxiter, num_threads⟩

/-- The function `move_right`: the render pass it requests. -/
def move_right (xmin xmax ymin ymax : ℚ) (maxiter : Int) (num_threads : Nat) : RenderCall :=
  let xrange := xmax - xmin
  let xmin := xmin + xrange / 4
  let xmax := xmax + xrange / 4
  ⟨xmin, xmax, ymin, ymax, maxiter, num_threads⟩

/-- The function `zoom_in`: `xmin -= xrange/4; xmax -= xrange/4;
ymin -= yrange/4; ymax -= yrange/4;` and the render pass it requests. -/
def zoom_in (xmin xmax ymin ymax : ℚ) (maxiter : Int) (num_threads : Nat) : RenderCall :=
  let xrange := xmax - xmin
  let yrange := ymax - ymin
  let xmin := xmin - xrange / 4
  let xmax := xmax - xrange / 4
  let ymin := ymin - yrange / 4
  let ymax := ymax - yrange / 4
  ⟨xmin, xmax, ymin, ymax, maxiter, num_threads⟩

/-- The function `zoom_out`: `xmin += xrange/4; xmax += xrange/4;
ymin += yrange/4; ymax += yrange/4;` and the render pass it requests. -/
def zoom_out (xmin xmax ymin ymax : ℚ) (maxiter : Int) (num_threads : Nat) : RenderCall :=
  let xrange := xmax - xmin
  let yrange := ymax - ymin
  let xmin := xmin + xrange / 4
  let xmax := xmax + xrange / 4
  let ymin := ymin + yrange / 4
  let ymax := ymax + yrange / 4
  ⟨xmin, xmax, ymin, ymax, maxiter, num_threads⟩

/-- The function `recenter`; `width`, `height`, `xpos`, `ypos` are the values
of `gfx_xsize()`, `gfx_ysize()`, `gfx_xpos()`, `gfx_ypos()`. -/
def recenter (width height : Nat) (xpos ypos : Int)
    (xmin xmax ymin ymax : ℚ) (maxiter : Int) (num_threads : Nat) : RenderCall :=
  let xrange := xmax - xmin
  let yrange := ymax - ymin
  let xcenter := xmin + xrange * (xpos : ℚ) / (width : ℚ)
  let ycenter := ymin + yrange * (ypos : ℚ) / (height : ℚ)
  let xmax := xcenter + xrange
  let xmin := xcenter - xrange
  let ymax := ycenter + yrange
  let ymin := ycenter - yrange
  ⟨xmin, xmax, ymin, ymax, maxiter, num_threads⟩

/-- The function `change_maxiter`: `maxiter *= 5` (the only value `main` ever
passes is 500, so the product does not overflow). -/
def change_maxiter (xmin xmax ymin ymax : ℚ) (maxiter : Int) (num_threads : Nat) : RenderCall :=
  let maxiter := maxiter * 5
  ⟨xmin, xmax, ymin, ymax, maxiter, num_threads⟩

/-- The scaling `xmin + i*(xmax-xmin)/width` from a pixel index to a
coordinate used by every `compute_image` (for `y`: with `ymin`, `ymax`,
`height`). -/
def scale (lo hi : ℚ) (size : Nat) (i : Int) : ℚ :=
  lo + (i : ℚ) * (hi - lo) / (size : ℚ)

/-! ### The command loop of `main` (`fractalthread.c`) -/

/-- The local variables of `main`. -/
structure MainState where
  xmin : ℚ
  xmax : ℚ
  ymin : ℚ
  ymax : ℚ
  maxiter : Int
  num_threads : Nat
deriving DecidableEq

/-- One event: the code `c` returned by `gfx_wait()` and the mouse position
`gfx_xpos()`, `gfx_ypos()` at that moment. -/
structure Event where
  c : Int
  xpos : Int
  ypos : Int
deriving DecidableEq

/-- The code of a key. -/
def key (ch : Char) : Int := (ch.toNat : Int)

/-- The values `main` starts with. -/
def main_init : MainState := ⟨-3/2, 1/2, -1, 1, 500, 1⟩

/-- The `switch (c)` of `main` for one event on a `width × height` window:
`none` is `exit(0)`; otherwise the variables of `main` after the `switch` and
the render pass the command requested, if any. The navigation functions take
the variables by value and return nothing, so only the `num_threads = k`
cases change a variable. -/
def main_step (width height : Nat) (s : MainState) (e : Event) :
    Option (MainState × Option RenderCall) :=
  if e.c = key 'r' then
    some (s, some (move_right s.xmin s.xmax s.ymin s.ymax s.maxiter s.num_threads))
  else if e.c = key 'l' then
    some (s, some (move_left s.xmin s.xmax s.ymin s.ymax s.maxiter s.num_threads))
  else if e.c = key 'u' then
    some (s, some (move_up s.xmin s.xmax s.ymin s.ymax s.maxiter s.num_threads))
  else if e.c = key 'd' then
    some (s, some (move_down s.xmin s.xmax s.ymin s.ymax s.maxiter s.num_threads))
  else if e.c = key 'q' then
    none
  else if e.c = key 'i' ∨ e.c = key '+' then
    some (s, some (zoom_in s.xmin s.xmax s.ymin s.ymax s.maxiter s.num_threads))
  else if e.c = key 'o' ∨ e.c = key '-' then
    some (s, some (zoom_out s.xmin s.xmax s.ymin s.ymax s.maxiter s.num_threads))
  else if e.c = 1 ∨ e.c = 2 ∨ e.c = 3 then
    some (s, some (recenter width height e.xpos e.ypos
      s.xmin s.xmax s.ymin s.ymax s.maxiter s.num_threads))
  else if e.c = key 'm' then
    some (s, some (change_maxiter s.xmin s.xmax s.ymin s.ymax s.maxiter s.num_threads))
  else if e.c = key '1' then some ({ s with num_threads := 1 }, none)
  else if e.c = key '2' then some ({ s with num_threads := 2 }, none)
  else if e.c = key '3' then some ({ s with num_threads := 3 }, none)
  else if e.c = key '4' then some ({ s with num_threads := 4 }, none)
  else if e.c = key '5' then some ({ s with num_threads := 5 }, none)
  else if e.c = key '6' then some ({ s with num_threads := 6 }, none)
  else if e.c = key '7' then some ({ s with num_threads := 7 }, none)
  else if e.c = key '8' then some ({ s with num_threads := 8 }, none)
  else some (s, none)

/-- The loop `while(1)` of `main` over the events that arrive: the render
passes requested, in order, until the events end or `exit(0)` is reached. -/
def main_loop (width height : Nat) : MainState → List Event → List RenderCall
  | _, [] => []
  | s, e :: es =>
    match main_step width height s e with
    | none => []
    | some (s', r) => r.toList ++ main_loop width height s' es

/-- The program `main`: `gfx_open(640,480,...)`, the first render pass with
the initial values, then the command loop. The result is the list of render
passes requested. -/
def main (events : List Event) : List RenderCall :=
  ⟨main_init.xmin, main_init.xmax, main_init.ymin, main_init.ymax,
    main_init.maxiter, main_init.num_threads⟩ :: main_loop 640 480 main_init events

/-- The command loop the specification describes: each navigation command is
applied to the current viewport and its result becomes the current viewport
for the next command. -/
def spec_loop (width height : Nat) : MainState → List Event → List RenderCall
  | _, [] => []
  | s, e :: es =>
    match main_step width height s e with
    | none => []
    | some (s', none) => spec_loop width height s' es
    | some (_, some r) =>
      r :: spec_loop width height ⟨r.xmin, r.xmax, r.ymin, r.ymax, r.maxiter, r.num_threads⟩ es

/-! ### The drawing surface -/

/-- One colour: the three arguments of `gfx_color`. -/
structure Colour where
  r : Int
  g : Int
  b : Int
deriving DecidableEq

/-- One write to the surface: the pair `gfx_color(r,g,b); gfx_point(i,j)` that
a worker makes while it holds `lock`. -/
structure Write where
  i : Int
  j : Int
  colour : Colour
deriving DecidableEq

/-- The colour of pixel `(i, j)` after the writes of `surface` (oldest first):
that of the last write to the pixel, `none` if the pixel was never written
(it keeps the colour of `gfx_clear`). -/
def colour_at (i j : Int) : List Write → Option Colour
  | [] => none
  | w :: ws =>
    match colour_at i j ws with
    | some c => some c
    | none => if w.i = i ∧ w.j = j then some w.colour else none

/-- The expression `255 * iter / maxiter`: the integer division of C, which
truncates. `main` only passes `maxiter = 500` or `2500`, for which the
division is defined and `255 * iter ≤ 255 * maxiter` fits an `int`. -/
def shade (iter maxiter : Int) : Int :=
  Int.tdiv (255 * iter) maxiter

/-- How a call of `create_threads` ends when it does not return to its
caller: `exit(code)`, or a statement whose behaviour is undefined. -/
inductive Stop where
  | exited (code : Int)
  | undefined
deriving DecidableEq

/-- The workers that `pthread_create` started, for the return codes `rc`: the
loop `for (i = 0; i < num_threads; i++) { ...; rc = pthread_create(...);
if (rc < 0) exit(1); }` of both `create_threads`. The result is
`Except.error (Stop.exited 1)` for `exit(1)` and otherwise the indices of the
workers that run; `rc i` is what the `i`-th call of `pthread_create` returns,
and a worker runs, and its handle `p[i]` is written, exactly when its call
returned 0 (POSIX: 0 on success, a positive error number on failure).
Arguments: iterations left, `i`, the workers started so far. -/
def spawn_loop (rc : Nat → Int) : Nat → Nat → List Nat → Except Stop (List Nat)
  | 0, _, started => Except.ok started
  | n + 1, i, started =>
    if rc i < 0 then Except.error (Stop.exited 1)
    else spawn_loop rc n (i + 1) (if rc i = 0 then started ++ [i] else started)

/-- The loop `for (i=0; i < num_threads; i++) { pthread_join(p[i], NULL); }`
of both `create_threads`. The array `p` is declared without initialiser and
`p[i]` is written only by a `pthread_create` that returned 0: joining such a
worker waits for it, and joining a handle that was never written is undefined
(`Stop.undefined`). Arguments: iterations left, `i`. -/
def join_loop (rc : Nat → Int) : Nat → Nat → Except Stop Unit
  | 0, _ => Except.ok ()
  | n + 1, i =>
    if rc i = 0 then join_loop rc n (i + 1) else Except.error Stop.undefined

/-! ### `fractalthread.c`: static partition -/

namespace Thread

/-- The struct `thread_args` of `fractalthread.c` (`end_` is the field `end`). -/
structure thread_args where
  xmin : ℚ
  xmax : ℚ
  ymin : ℚ
  ymax : ℚ
  start : Nat
  end_ : Nat
  maxiter : Int
  num_threads : Nat
deriving DecidableEq

/-- The body of the inner loop of `compute_image` at pixel `(i, j)`: scale,
`compute_point`, the three colours, and the write under `lock`. -/
def pixel (thread : thread_args) (width height : Nat) (i j : Int) : Write :=
  let x := scale thread.xmin thread.xmax width i
  let y := scale thread.ymin thread.ymax height j
  let iter := compute_point x y thread.maxiter
  let color := shade iter thread.maxiter * 5
  let color2 := shade iter thread.maxiter * 10
  let color3 := shade iter thread.maxiter * 15
  ⟨i, j, ⟨color, color2, color3⟩⟩

/-- The function `compute_image` of one worker: `for(j=start;j<end;j++)
for(i=0;i<width;i++)`, the writes in program order. -/
def compute_image (thread : thread_args) (width height : Nat) : List Write :=
  (List.range' thread.start (thread.end_ - thread.start)).flatMap fun (j : Nat) =>
    (List.range width).map fun (i : Nat) => pixel thread width height (i : Int) (j : Int)

/-- The value stored in `args[i]` by `create_threads`:
`start = i*(height/num_threads)`, `end = (i+1)*(height/num_threads)`. -/
def make_args (height : Nat) (xmin xmax ymin ymax : ℚ) (maxiter : Int) (num_threads : Nat)
    (i : Nat) : thread_args :=
  let start := i * (height / num_threads)
  let end_ := (i + 1) * (height / num_threads)
  ⟨xmin, xmax, ymin, ymax, start, end_, maxiter, num_threads⟩

/-- The function `create_threads` of `fractalthread.c`, for a surface of
height `height` and return codes `rc` of `pthread_create`: the loop that
creates the workers, then the loop that joins `p[0] .. p[num_threads-1]`.
`Except.error` is `exit(1)` or undefined behaviour; `Except.ok` is the return
to the caller, with the arguments of the workers that ran and were joined. -/
def create_threads (rc : Nat → Int) (height : Nat)
    (xmin xmax ymin ymax : ℚ) (maxiter : Int) (num_threads : Nat) :
    Except Stop (List thread_args) :=
  match spawn_loop rc num_threads 0 [] with
  | Except.error e => Except.error e
  | Except.ok started =>
    match join_loop rc num_threads 0 with
    | Except.error e => Except.error e
    | Except.ok _ =>
      Except.ok (started.map (make_args height xmin xmax ymin ymax maxiter num_threads))

/-- The surface after a pass in which the workers `ws` ran one after the
other. Any other interleaving of the same writes gives the same colours
(`colour_at_region`). -/
def render (ws : List thread_args) (width height : Nat) : List Write :=
  ws.flatMap fun a => compute_image a width height

end Thread

/-! ### `fractaltask.c`: dynamic task queue -/

namespace Task

/-- The struct `task_args`. -/
structure task_args where
  done : Int
  x : Int
  y : Int
deriving DecidableEq

/-- The table `tasks`: `tasks i j` is `tasks[i][j]`. -/
abbrev Tasks := Nat → Nat → task_args

/-- The table after the assignment `tasks[i][j] = v`. -/
def Tasks.set (t : Tasks) (i j : Nat) (v : task_args) : Tasks :=
  fun a b => if a = i ∧ b = j then v else t a b

/-- The table as `calloc` returns it: every field 0. -/
def calloc_tasks : Tasks := fun _ _ => ⟨0, 0, 0⟩

/-- The inner loop of "Initialize tasks" for row `i`:
`tasks[i][j].x = j*20; tasks[i][j].y = i*20; tasks[i][j].done = 0;`.
Arguments: iterations left, `j`. -/
def init_row (i : Nat) : Nat → Nat → Tasks → Tasks
  | 0, _, t => t
  | n + 1, j, t => init_row i n (j + 1) (t.set i j ⟨0, (j : Int) * 20, (i : Int) * 20⟩)

/-- The outer loop of "Initialize tasks". Arguments: iterations left, `i`. -/
def init_rows (x_size : Nat) : Nat → Nat → Tasks → Tasks
  | 0, _, t => t
  | n + 1, i, t => init_rows x_size n (i + 1) (init_row i x_size 0 t)

/-- The task table of a `width × height` surface when the workers start. -/
def init_tasks (width height : Nat) : Tasks :=
  init_rows (width / 20) (height / 20) 0 calloc_tasks

/-- The variables of the search for a task: the table, `x_task`, `y_task`. -/
structure Scan where
  tasks : Tasks
  x_task : Int
  y_task : Int

/-- The inner loop `for(j=0; j<x_size; j++)` of the search in row `i`, with
its `break`. Arguments: iterations left, `j`. -/
def scan_row (i : Nat) : Nat → Nat → Scan → Scan
  | 0, _, s => s
  | n + 1, j, s =>
    if (s.tasks i j).done = 0 then
      ⟨s.tasks.set i j { s.tasks i j with done := 1 }, (s.tasks i j).x, (s.tasks i j).y⟩
    else scan_row i n (j + 1) s

/-- The outer loop `for(i=0; i<y_size; i++)` of the search, with its
`if (x_task >= 0 && y_task >= 0) break;`. Arguments: iterations left, `i`. -/
def scan_rows (x_size : Nat) : Nat → Nat → Scan → Scan
  | 0, _, s => s
  | n + 1, i, s =>
    if 0 ≤ (scan_row i x_size 0 s).x_task ∧ 0 ≤ (scan_row i x_size 0 s).y_task then
      scan_row i x_size 0 s
    else scan_rows x_size n (i + 1) (scan_row i x_size 0 s)

/-- One claim, the critical section at the head of the worker loop:
`x_task = -1; y_task = -1;` and the search. -/
def claim (x_size y_size : Nat) (t : Tasks) : Scan :=
  scan_rows x_size y_size 0 ⟨t, -1, -1⟩

/-- The struct `thread_args` of `fractaltask.c`; the field `tasks` points to
the global table, which is the field `tasks` of `Pass`. -/
structure thread_args where
  xmin : ℚ
  xmax : ℚ
  ymin : ℚ
  ymax : ℚ
  maxiter : Int
  num_threads : Nat
deriving DecidableEq

/-- The body of the inner loop over one tile at pixel
`(i + x_task, j + y_task)`. -/
def pixel (thread : thread_args) (width height : Nat) (x_task y_task : Int) (i j : Int) :
    Write :=
  let x := scale thread.xmin thread.xmax width (i + x_task)
  let y := scale thread.ymin thread.ymax height (j + y_task)
  let iter := compute_point x y thread.maxiter
  let color := shade iter thread.maxiter * 10
  let color2 := shade iter thread.maxiter * 20
  let color3 := shade iter thread.maxiter * 50
  ⟨i + x_task, j + y_task, ⟨color, color2, color3⟩⟩

/-- The loops `for(j=0;j<20;j++) for(i=0;i<20;i++)` over the claimed tile: its
writes in program order. -/
def tile_writes (thread : thread_args) (width height : Nat) (x_task y_task : Int) :
    List Write :=
  (List.range 20).flatMap fun (j : Nat) =>
    (List.range 20).map fun (i : Nat) =>
      pixel thread width height x_task y_task (i : Int) (j : Int)

/-- The state of one render pass: the task table, the workers that have left
their loop, the history of the claims that returned a tile (worker, `x_task`,
`y_task`; oldest first) and the surface. -/
structure Pass where
  tasks : Tasks
  exited : List Nat
  claims : List (Nat × Int × Int)
  surface : List Write

/-- One turn of the loop `while (1)` of `compute_image` by worker `w`: the
claim under `lock`, then either `break` (no task found) or the writes of the
tile. A worker that was not started, or has left its loop, does nothing. -/
def worker_step (thread : thread_args) (width height : Nat) (started : List Nat)
    (s : Pass) (w : Nat) : Pass :=
  if w ∈ started ∧ w ∉ s.exited then
    if (claim (width / 20) (height / 20) s.tasks).x_task < 0 ∨
        (claim (width / 20) (height / 20) s.tasks).y_task < 0 then
      { s with tasks := (claim (width / 20) (height / 20) s.tasks).tasks,
               exited := w :: s.exited }
    else
      { tasks := (claim (width / 20) (height / 20) s.tasks).tasks,
        exited := s.exited,
        claims := s.claims ++ [(w, (claim (width / 20) (height / 20) s.tasks).x_task,
          (claim (width / 20) (height / 20) s.tasks).y_task)],
        surface := s.surface ++ tile_writes thread width height
          (claim (width / 20) (height / 20) s.tasks).x_task
          (claim (width / 20) (height / 20) s.tasks).y_task }
  else s

/-- The pass when the workers start: the table just initialised, an untouched
surface. -/
def init_pass (width height : Nat) : Pass :=
  ⟨init_tasks width height, [], [], []⟩

/-- The pass after the workers took their turns in the order `sched` (a list
of worker indices; each claim is atomic, so an execution is such a list). -/
def run (thread : thread_args) (width height : Nat) (started : List Nat)
    (sched : List Nat) : Pass :=
  sched.foldl (worker_step thread width height started) (init_pass width height)

/-- Every started worker has left its loop, so every `pthread_join` returns. -/
def Pass.joined (started : List Nat) (s : Pass) : Prop :=
  ∀ w, w ∈ started → w ∈ s.exited

/-- The function `create_threads` of `fractaltask.c` on a `width × height`
surface, for return codes `rc` of `pthread_create` and a schedule `sched` of
the workers: the table is allocated and initialised, then the loop that
creates the workers, then the loop that joins `p[0] .. p[num_threads-1]`.
`Except.error` is `exit(1)` or undefined behaviour; `Except.ok` is the return
to the caller, with the pass after `sched`. -/
def create_threads (rc : Nat → Int) (sched : List Nat) (width height : Nat)
    (xmin xmax ymin ymax : ℚ) (maxiter : Int) (num_threads : Nat) : Except Stop Pass :=
  match spawn_loop rc num_threads 0 [] with
  | Except.error e => Except.error e
  | Except.ok started =>
    match join_loop rc num_threads 0 with
    | Except.error e => Except.error e
    | Except.ok _ =>
      Except.ok (run ⟨xmin, xmax, ymin, ymax, maxiter, num_threads⟩ width height started
        sched)

/-- The tiles of the table are as `create_threads` set them up and as claims
leave them: on the `y_size × x_size` grid, `tasks[i][j]` has `x = j*20`,
`y = i*20` and `done` 0 or 1. -/
def Grid (x_size y_size : Nat) (t : Tasks) : Prop :=
  ∀ i j, i < y_size → j < x_size →
    (t i j).x = (j : Int) * 20 ∧ (t i j).y = (i : Int) * 20 ∧
      ((t i j).done = 0 ∨ (t i j).done = 1)

/-- The invariant of a pass on a `width × height` surface: the table is a
grid; a tile has been returned by one claim if its `done` is 1 and by none
otherwise; every claim returned a tile of the grid; once a worker has left
its loop every tile is done; the surface holds the writes of the claimed
tiles in the order of the claims. -/
def Inv (thread : thread_args) (width height : Nat) (s : Pass) : Prop :=
  Grid (width / 20) (height / 20) s.tasks ∧
  (∀ i j, i < height / 20 → j < width / 20 →
    (s.claims.map Prod.snd).count ((j : Int) * 20, (i : Int) * 20) =
      if (s.tasks i j).done = 1 then 1 else 0) ∧
  (∀ c, c ∈ s.claims → ∃ i j, i < height / 20 ∧ j < width / 20 ∧
    c.2 = ((j : Int) * 20, (i : Int) * 20)) ∧
  (s.exited ≠ [] → ∀ i j, i < height / 20 → j < width / 20 → (s.tasks i j).done = 1) ∧
  s.surface = s.claims.flatMap fun c => tile_writes thread width height c.2.1 c.2.2

end Task

/-! ### The final images of the two renderers -/

/-- The value `255 * iter / maxiter` at pixel `(i, j)`, with `iter` the value
of `compute_point` at the scaled coordinates: the expression both threaded
renderers compute before applying their colour multipliers. -/
def pixel_shade (width height : Nat) (xmin xmax ymin ymax : ℚ) (maxiter : Int) (i j : Int) :
    Int :=
  shade (compute_point (scale xmin xmax width i) (scale ymin ymax height j) maxiter) maxiter

/-- The colour of pixel `(i, j)` after one pass of `fractalthread.c` on a
`width × height` surface when every worker is created (`none`: untouched). -/
def Thread.image (width height : Nat) (xmin xmax ymin ymax : ℚ) (maxiter : Int)
    (num_threads : Nat) (i j : Int) : Option Colour :=
  match Thread.create_threads (fun _ => 0) height xmin xmax ymin ymax maxiter num_threads with
  | Except.ok ws => colour_at i j (Thread.render ws width height)
  | Except.error _ => none

/-- The colour of pixel `(i, j)` after one pass of `fractaltask.c` on a
`width × height` surface when every worker is created and the workers take
their turns in the order `sched` (`none`: untouched). -/
def Task.image (sched : List Nat) (width height : Nat) (xmin xmax ymin ymax : ℚ)
    (maxiter : Int) (num_threads : Nat) (i j : Int) : Option Colour :=
  match Task.create_threads (fun _ => 0) sched width height xmin xmax ymin ymax maxiter
      num_threads with
  | Except.ok s => colour_at i j s.surface
  | Except.error _ => none

/-- The colour `fractalthread.c` gives pixel `(i, j)`: the shade times 5, 10
and 15. -/
def Thread.pixel_colour (width height : Nat) (xmin xmax ymin ymax : ℚ) (maxiter : Int)
    (i j : Int) : Colour :=
  ⟨pixel_shade width height xmin xmax ymin ymax maxiter i j * 5,
   pixel_shade width height xmin xmax ymin ymax maxiter i j * 10,
   pixel_shade width height xmin xmax ymin ymax maxiter i j * 15⟩

/-- The colour `fractaltask.c` gives pixel `(i, j)`: the shade times 10, 20
and 50. -/
def Task.pixel_colour (width height : Nat) (xmin xmax ymin ymax : ℚ) (maxiter : Int)
    (i j : Int) : Colour :=
  ⟨pixel_shade width height xmin xmax ymin ymax maxiter i j * 10,
   pixel_shade width height xmin xmax ymin ymax maxiter i j * 20,
   pixel_shade width height xmin xmax ymin ymax maxiter i j * 50⟩

/-! ### The passes statement by statement: the mutex `lock` -/

/-- The program points of all workers after worker `w` moved to `p`. -/
def set_pc {P : Type} (pc : Nat → P) (w : Nat) (p : P) : Nat → P :=
  fun v => if v = w then p else pc v

/-- The lock discipline: a worker whose program point lies between a
`pthread_mutex_lock(&lock)` and the matching `pthread_mutex_unlock(&lock)` is
the owner of `lock`. -/
def LockInv {P : Type} (holds : P → Bool) (lock : Option Nat) (pc : Nat → P) : Prop :=
  ∀ w, holds (pc w) = true → lock = some w

namespace Task

/-- The program points of a worker of `fractaltask.c` (`compute_image`), each
with the values of the worker's local variables that are live there. -/
inductive PC where
  /-- Line 83, about to call `pthread_mutex_lock(&lock)` at the head of
  `while (1)`. -/
  | lock_claim
  /-- Lines 84 to 101, the mutex held, about to search the table. -/
  | scan
  /-- Line 104, about to call `pthread_mutex_unlock(&lock)` after the
  search. -/
  | unlock_claim (x_task y_task : Int)
  /-- Line 107, about to test `x_task < 0 || y_task < 0`. -/
  | test (x_task y_task : Int)
  /-- Lines 111 and 112, about to test `j < 20` and `i < 20`. -/
  | tile_head (x_task y_task : Int) (i j : Nat)
  /-- Lines 115 to 125, about to compute the colour of the pixel. -/
  | compute (x_task y_task : Int) (i j : Nat)
  /-- Line 128, about to call `pthread_mutex_lock(&lock)` for the write. -/
  | lock_write (x_task y_task : Int) (i j : Nat) (c : Colour)
  /-- Line 129, the mutex held, about to call `gfx_color`. -/
  | color (x_task y_task : Int) (i j : Nat) (c : Colour)
  /-- Line 132, the mutex held, about to call `gfx_point`. -/
  | point (x_task y_task : Int) (i j : Nat) (c : Colour)
  /-- Line 135, about to call `pthread_mutex_unlock(&lock)` after the write. -/
  | unlock_write (x_task y_task : Int) (i j : Nat)
  /-- Line 140, after `pthread_exit`. -/
  | exited
deriving DecidableEq

/-- The worker is between a `pthread_mutex_lock` and its
`pthread_mutex_unlock`. -/
def PC.holds : PC → Bool
  | PC.scan => true
  | PC.unlock_claim _ _ => true
  | PC.color _ _ _ _ _ => true
  | PC.point _ _ _ _ _ => true
  | PC.unlock_write _ _ _ _ => true
  | _ => false

/-- The worker is inside a write pair: it has locked for the write and has
not yet unlocked. -/
def PC.writing : PC → Bool
  | PC.color _ _ _ _ _ => true
  | PC.point _ _ _ _ _ => true
  | PC.unlock_write _ _ _ _ => true
  | _ => false

/-- The worker is inside a tile claim: it has locked for the search and has
not yet unlocked. -/
def PC.claiming : PC → Bool
  | PC.scan => true
  | PC.unlock_claim _ _ => true
  | _ => false

/-- The state of a pass of `fractaltask.c` between two statements: the owner
of the mutex `lock`, the table `tasks`, the current colour of the graphics
library (set by `gfx_color`, used by `gfx_point`), the points drawn so far and
the program point of every worker. -/
structure Sys where
  lock : Option Nat
  tasks : Tasks
  pen : Colour
  surface : List Write
  pc : Nat → PC

/-- The pass when the workers start: the mutex free
(`PTHREAD_MUTEX_INITIALIZER`), the table just initialised, nothing drawn,
every worker at the head of its loop; `pen` is the colour the library holds
at that moment. -/
def init_sys (width height : Nat) (pen : Colour) : Sys :=
  ⟨none, init_tasks width height, pen, [], fun _ => PC.lock_claim⟩

/-- One statement of worker `w`. A worker that was not started does nothing;
a worker at `pthread_mutex_lock` while the mutex is taken stays where it
is. -/
def stmt (thread : thread_args) (width height : Nat) (started : List Nat)
    (s : Sys) (w : Nat) : Sys :=
  if w ∈ started then
    match s.pc w with
    | PC.lock_claim =>
      if s.lock = none then { s with lock := some w, pc := set_pc s.pc w PC.scan } else s
    | PC.scan =>
      { s with tasks := (claim (width / 20) (height / 20) s.tasks).tasks,
               pc := set_pc s.pc w (PC.unlock_claim
                 (claim (width / 20) (height / 20) s.tasks).x_task
                 (claim (width / 20) (height / 20) s.tasks).y_task) }
    | PC.unlock_claim x_task y_task =>
      { s with lock := none, pc := set_pc s.pc w (PC.test x_task y_task) }
    | PC.test x_task y_task =>
      if x_task < 0 ∨ y_task < 0 then { s with pc := set_pc s.pc w PC.exited }
      else { s with pc := set_pc s.pc w (PC.tile_head x_task y_task 0 0) }
    | PC.tile_head x_task y_task i j =>
      if j < 20 then
        if i < 20 then { s with pc := set_pc s.pc w (PC.compute x_task y_task i j) }
        else { s with pc := set_pc s.pc w (PC.tile_head x_task y_task 0 (j + 1)) }
      else { s with pc := set_pc s.pc w PC.lock_claim }
    | PC.compute x_task y_task i j =>
      { s with pc := set_pc s.pc w (PC.lock_write x_task y_task i j
          (pixel thread width height x_task y_task (i : Int) (j : Int)).colour) }
    | PC.lock_write x_task y_task i j c =>
      if s.lock = none then
        { s with lock := some w, pc := set_pc s.pc w (PC.color x_task y_task i j c) }
      else s
    | PC.color x_task y_task i j c =>
      { s with pen := c, pc := set_pc s.pc w (PC.point x_task y_task i j c) }
    | PC.point x_task y_task i j _ =>
      { s with surface := s.surface ++ [⟨(i : Int) + x_task, (j : Int) + y_task, s.pen⟩],
               pc := set_pc s.pc w (PC.unlock_write x_task y_task i j) }
    | PC.unlock_write x_task y_task i j =>
      { s with lock := none, pc := set_pc s.pc w (PC.tile_head x_task y_task (i + 1) j) }
    | PC.exited => s
  else s

/-- The pass after the workers executed one statement each time they were
scheduled, in the order `sched`. -/
def exec (thread : thread_args) (width height : Nat) (started : List Nat) (pen : Colour)
    (sched : List Nat) : Sys :=
  sched.foldl (stmt thread width height started) (init_sys width height pen)

/-- The colour held in the worker's variables `color`, `color2`, `color3` is
the one it computed for its pixel. -/
def PC.computed (thread : thread_args) (width height : Nat) : PC → Prop
  | PC.lock_write x_task y_task i j c =>
    c = (pixel thread width height x_task y_task (i : Int) (j : Int)).colour
  | PC.color x_task y_task i j c =>
    c = (pixel thread width height x_task y_task (i : Int) (j : Int)).colour
  | PC.point x_task y_task i j c =>
    c = (pixel thread width height x_task y_task (i : Int) (j : Int)).colour
  | _ => True

/-- A worker between its `gfx_color` and its `gfx_point` finds in the library
the colour it has set. -/
def PC.pen_set (pen : Colour) : PC → Prop
  | PC.point _ _ _ _ c => pen = c
  | _ => True

/-- The invariant of the statement-level pass: the lock discipline; the
colours held by the workers are the computed ones; between `gfx_color` and
`gfx_point` the colour of the library is the worker's; every point drawn has
the colour of its pixel. -/
def SysInv (thread : thread_args) (width height : Nat) (s : Sys) : Prop :=
  LockInv PC.holds s.lock s.pc ∧
  (∀ w, (s.pc w).computed thread width height) ∧
  (∀ w, (s.pc w).pen_set s.pen) ∧
  (∀ wr, wr ∈ s.surface → wr.colour =
    pixel_colour width height thread.xmin thread.xmax thread.ymin thread.ymax thread.maxiter
      wr.i wr.j)

end Task


namespace Thread

/-- The program points of a worker of `fractalthread.c` (`compute_image`),
each with the values of the worker's local variables that are live there. -/
inductive PC where
  /-- Lines 73 and 74, about to test `j < thread->end` and `i < width`. -/
  | head (j i : Nat)
  /-- Lines 77 to 87, about to compute the colour of the pixel. -/
  | compute (j i : Nat)
  /-- Line 90, about to call `pthread_mutex_lock(&lock)`. -/
  | lock_write (j i : Nat) (c : Colour)
  /-- Line 91, the mutex held, about to call `gfx_color`. -/
  | color (j i : Nat) (c : Colour)
  /-- Line 94, the mutex held, about to call `gfx_point`. -/
  | point (j i : Nat) (c : Colour)
  /-- Line 97, about to call `pthread_mutex_unlock(&lock)`. -/
  | unlock_write (j i : Nat)
  /-- Line 100, after `pthread_exit`. -/
  | exited
deriving DecidableEq

/-- The worker is inside a write pair: it has locked for the write and has
not yet unlocked. -/
def PC.writing : PC → Bool
  | PC.color _ _ _ => true
  | PC.point _ _ _ => true
  | PC.unlock_write _ _ => true
  | _ => false

/-- The state of a pass of `fractalthread.c` between two statements: the
owner of the mutex `lock`, the current colour of the graphics library, the
points drawn so far and the program point of every worker. -/
structure Sys where
  lock : Option Nat
  pen : Colour
  surface : List Write
  pc : Nat → PC

/-- The pass when the workers start: the mutex free, nothing drawn, worker `k`
at the head of its loops with `j = args[k].start`. -/
def init_sys (height : Nat) (xmin xmax ymin ymax : ℚ) (maxiter : Int) (num_threads : Nat)
    (pen : Colour) : Sys :=
  ⟨none, pen, [],
    fun k => PC.head (make_args height xmin xmax ymin ymax maxiter num_threads k).start 0⟩

/-- One statement of worker `w`, which runs `compute_image` on `args[w]`. A
worker that was not started does nothing; a worker at `pthread_mutex_lock`
while the mutex is taken stays where it is. -/
def stmt (width height : Nat) (xmin xmax ymin ymax : ℚ) (maxiter : Int) (num_threads : Nat)
    (started : List Nat) (s : Sys) (w : Nat) : Sys :=
  if w ∈ started then
    match s.pc w with
    | PC.head j i =>
      if j < (make_args height xmin xmax ymin ymax maxiter num_threads w).end_ then
        if i < width then { s with pc := set_pc s.pc w (PC.compute j i) }
        else { s with pc := set_pc s.pc w (PC.head (j + 1) 0) }
      else { s with pc := set_pc s.pc w PC.exited }
    | PC.compute j i =>
      { s with pc := set_pc s.pc w (PC.lock_write j i
          (pixel (make_args height xmin xmax ymin ymax maxiter num_threads w) width height
            (i : Int) (j : Int)).colour) }
    | PC.lock_write j i c =>
      if s.lock = none then { s with lock := some w, pc := set_pc s.pc w (PC.color j i c) }
      else s
    | PC.color j i c =>
      { s with pen := c, pc := set_pc s.pc w (PC.point j i c) }
    | PC.point j i _ =>
      { s with surface := s.surface ++ [⟨(i : Int), (j : Int), s.pen⟩],
               pc := set_pc s.pc w (PC.unlock_write j i) }
    | PC.unlock_write j i =>
      { s with lock := none, pc := set_pc s.pc w (PC.head j (i + 1)) }
    | PC.exited => s
  else s

/-- The pass after the workers executed one statement each time they were
scheduled, in the order `sched`. -/
def exec (width height : Nat) (xmin xmax ymin ymax : ℚ) (maxiter : Int) (num_threads : Nat)
    (started : List Nat) (pen : Colour) (sched : List Nat) : Sys :=
  sched.foldl (stmt width height xmin xmax ymin ymax maxiter num_threads started)
    (init_sys height xmin xmax ymin ymax maxiter num_threads pen)

/-- The colour held in the worker's variables `color`, `color2`, `color3` is
the one of its pixel. -/
def PC.computed (width height : Nat) (xmin xmax ymin ymax : ℚ) (maxiter : Int) : PC → Prop
  | PC.lock_write j i c => c = pixel_colour width height xmin xmax ymin ymax maxiter i j
  | PC.color j i c => c = pixel_colour width height xmin xmax ymin ymax maxiter i j
  | PC.point j i c => c = pixel_colour width height xmin xmax ymin ymax maxiter i j
  | _ => True

/-- A worker between its `gfx_color` and its `gfx_point` finds in the library
the colour it has set. -/
def PC.pen_set (pen : Colour) : PC → Prop
  | PC.point _ _ c => pen = c
  | _ => True

/-- The invariant of the statement-level pass of `fractalthread.c`. -/
def SysInv (width height : Nat) (xmin xmax ymin ymax : ℚ) (maxiter : Int) (s : Sys) : Prop :=
  LockInv PC.writing s.lock s.pc ∧
  (∀ w, (s.pc w).computed width height xmin xmax ymin ymax maxiter) ∧
  (∀ w, (s.pc w).pen_set s.pen) ∧
  (∀ wr, wr ∈ s.surface → wr.colour =
    pixel_colour width height xmin xmax ymin ymax maxiter wr.i wr.j)

end Thread

/-! ## Part 2. Theorems -/

/-- With exact arithmetic the test `cabs(z) < 4` is the test `normSq z < 16`. -/
theorem cabs_lt_four_iff (z : Cplx) :
    Complex.abs ⟨(z.re : ℝ), (z.im : ℝ)⟩ < 4 ↔ normSq z < 16 := by
  rw [Complex.abs_apply, Complex.normSq_mk, normSq]
  have h4 : (4 : ℝ) = Real.sqrt 16 := by
    rw [show (16 : ℝ) = 4 ^ 2 by norm_num]
    exact (Real.sqrt_sq (by norm_num)).symm
  have hn : (0 : ℝ) ≤ (z.re : ℝ) * z.re + z.im * z.im := by
    nlinarith [mul_self_nonneg (z.re : ℝ), mul_self_nonneg (z.im : ℝ)]
  rw [h4, Real.sqrt_lt_sqrt_iff hn]
  have hc : ((z.re * z.re + z.im * z.im : ℚ) : ℝ) = (z.re : ℝ) * z.re + z.im * z.im := by
    push_cast; ring
  rw [← hc]
  exact_mod_cast Iff.rfl

/-- One turn of the loop when both tests pass. -/
theorem compute_loop_step (alpha : Cplx) (max : Int) (fuel : Nat) (z : Cplx) (iter : Int)
    (hz : normSq z < 16) (hi : iter < max) :
    compute_loop alpha max (fuel + 1) z iter =
      compute_loop alpha max fuel (cadd (cpow2 z) alpha) (iter + 1) := by
  simp [compute_loop, hz, hi]

/-- The loop stops at once when the magnitude test fails. -/
theorem compute_loop_escape (alpha : Cplx) (max : Int) (fuel : Nat) (z : Cplx) (iter : Int)
    (hz : ¬ normSq z < 16) : compute_loop alpha max fuel z iter = iter := by
  cases fuel with
  | zero => rfl
  | succ n => simp [compute_loop, hz]

/-- The loop stops at once when the budget is used up. -/
theorem compute_loop_budget (alpha : Cplx) (max : Int) (fuel : Nat) (z : Cplx) (iter : Int)
    (hi : ¬ iter < max) : compute_loop alpha max fuel z iter = iter := by
  cases fuel with
  | zero => rfl
  | succ n => simp [compute_loop, hi]

/-- Termination: any iteration bound of at least `max - iter` gives the same
result, so the bound `max.toNat` used by `compute_point` never cuts the loop
short. -/
theorem compute_loop_fuel (alpha : Cplx) (max : Int) (fuel : Nat) :
    ∀ (extra : Nat) (z : Cplx) (iter : Int), max - iter ≤ (fuel : Int) →
      compute_loop alpha max (fuel + extra) z iter = compute_loop alpha max fuel z iter := by
  induction fuel with
  | zero =>
    intro extra z iter h
    have hi : ¬ iter < max := by
      simp only [Nat.cast_zero] at h; omega
    rw [compute_loop_budget _ _ _ _ _ hi, compute_loop_budget _ _ _ _ _ hi]
  | succ n ih =>
    intro extra z iter h
    by_cases hc : normSq z < 16 ∧ iter < max
    · rw [show n + 1 + extra = (n + extra) + 1 by omega,
        compute_loop_step _ _ _ _ _ hc.1 hc.2, compute_loop_step _ _ _ _ _ hc.1 hc.2]
      apply ih
      push_cast at h; omega
    · rcases not_and_or.mp hc with hz | hi
      · rw [compute_loop_escape _ _ _ _ _ hz, compute_loop_escape _ _ _ _ _ hz]
      · rw [compute_loop_budget _ _ _ _ _ hi, compute_loop_budget _ _ _ _ _ hi]

/-- The loop invariant of `compute_point`: started at `z_k` with `iter = k`,
after all earlier orbit points passed the magnitude test, the loop returns an
`n` between `k` and `max` such that every orbit point before `n` passes the
test and, when `n < max`, the point `z_n` fails it. -/
theorem compute_loop_spec (c : Cplx) (max : Int) (fuel : Nat) :
    ∀ k : Nat, (k : Int) + fuel = max →
      (∀ m : Nat, m < k → normSq (orbit c m) < 16) →
      ∃ n : Nat, compute_loop c max fuel (orbit c k) k = (n : Int) ∧ k ≤ n ∧ (n : Int) ≤ max ∧
        (∀ m : Nat, m < n → normSq (orbit c m) < 16) ∧
        ((n : Int) < max → 16 ≤ normSq (orbit c n)) := by
  induction fuel with
  | zero =>
    intro k hk hlt
    refine ⟨k, rfl, le_refl k, ?_, hlt, ?_⟩
    · simp only [Nat.cast_zero] at hk; omega
    · intro h; simp only [Nat.cast_zero] at hk; omega
  | succ f ih =>
    intro k hk hlt
    have hkmax : (k : Int) < max := by push_cast at hk; omega
    by_cases hz : normSq (orbit c k) < 16
    · rw [compute_loop_step _ _ _ _ _ hz hkmax]
      have hk1 : ((k + 1 : Nat) : Int) + f = max := by push_cast at hk ⊢; omega
      have hlt1 : ∀ m : Nat, m < k + 1 → normSq (orbit c m) < 16 := by
        intro m hm
        rcases Nat.lt_succ_iff_lt_or_eq.mp hm with h | h
        · exact hlt m h
        · rw [h]; exact hz
      obtain ⟨n, hn, hkn, hnmax, hall, hesc⟩ := ih (k + 1) hk1 hlt1
      refine ⟨n, ?_, by omega, hnmax, hall, hesc⟩
      rw [← hn]; rfl
    · rw [compute_loop_escape _ _ _ _ _ hz]
      exact ⟨k, rfl, le_refl k, le_of_lt hkmax, hlt, fun _ => not_lt.mp hz⟩

/-- The value of `compute_point` at `c = 1 + 1i` with budget 100 is 3: the
orbit is `0, 1+i, 1+3i, -7+7i`, and `-7+7i` is the first point of modulus at
least 4. -/
theorem compute_point_one_one : compute_point 1 1 100 = 3 := by
  unfold compute_point
  rw [show (100 : Int).toNat = 97 + 1 + 1 + 1 from rfl]
  rw [compute_loop_step _ _ _ _ _ (by norm_num [normSq]) (by norm_num)]
  rw [compute_loop_step _ _ _ _ _ (by norm_num [normSq, cadd, cpow2]) (by norm_num)]
  rw [compute_loop_step _ _ _ _ _ (by norm_num [normSq, cadd, cpow2]) (by norm_num)]
  rw [compute_loop_escape _ _ _ _ _ (by norm_num [normSq, cadd, cpow2])]
  norm_num

/-- C4 (as stated, refuted): at `c = 1 + 1i` with budget 100 the value returned
by `compute_point` is not the first `n` with `|z_n|² ≥ 4`: the code returns 3
although `|z_2|² = 10`. -/
theorem compute_point_not_radius_two :
    ¬ IsEscapeTime 4 ⟨1, 1⟩ 100 (compute_point 1 1 100) := by
  rw [compute_point_one_one]
  rintro (⟨n, -, -, hall, hn⟩ | ⟨-, h⟩)
  · have hn3 : n = 3 := by omega
    subst hn3
    have h2 := hall 2 (by norm_num)
    norm_num [orbit, normSq, cadd, cpow2] at h2
  · omega

/-- C4 (amended): for every point and every `max > 0`, `compute_point` returns
the first `n ≤ max` at which the orbit satisfies `|z_n| ≥ 4`, that is
`|z_n|² ≥ 16`, or `max` if there is no such `n`. -/
theorem compute_point_escape_time (x y : ℚ) (max : Int) (hmax : 0 < max) :
    IsEscapeTime 16 ⟨x, y⟩ max (compute_point x y max) := by
  have h0 : ((0 : Nat) : Int) + max.toNat = max := by
    rw [Int.toNat_of_nonneg (le_of_lt hmax)]; simp
  obtain ⟨n, hn, -, hnmax, hall, hesc⟩ :=
    compute_loop_spec ⟨x, y⟩ max max.toNat 0 h0 (fun m hm => absurd hm (Nat.not_lt_zero m))
  have hr : compute_point x y max = (n : Int) := hn
  rw [hr]
  by_cases hE : 16 ≤ normSq (orbit ⟨x, y⟩ n)
  · exact Or.inl ⟨n, hnmax, hE, hall, rfl⟩
  · have hnm : (n : Int) = max := by
      by_contra hne
      exact hE (hesc (lt_of_le_of_ne hnmax hne))
    refine Or.inr ⟨?_, hnm⟩
    intro m hm
    have hmn : m ≤ n := by omega
    rcases Nat.lt_or_eq_of_le hmn with h | h
    · exact hall m h
    · rw [h]; exact not_le.mp hE

/-- Witness for C4 (amended) at `c = 1 + 1i`, budget 100. -/
theorem compute_point_escape_time_witness :
    (0 : Int) < 100 ∧ IsEscapeTime 16 ⟨1, 1⟩ 100 (compute_point 1 1 100) :=
  ⟨by decide, compute_point_escape_time 1 1 100 (by decide)⟩

/-- The origin is a fixed point of the loop body, so from `z = 0` the loop
runs until the budget is used up. -/
theorem compute_loop_origin (max : Int) (fuel : Nat) :
    ∀ iter : Int, iter + fuel = max →
      compute_loop ⟨0, 0⟩ max fuel ⟨0, 0⟩ iter = max := by
  induction fuel with
  | zero => intro iter h; simp only [Nat.cast_zero, add_zero] at h; simpa [compute_loop] using h
  | succ f ih =>
    intro iter h
    have hi : iter < max := by push_cast at h; omega
    rw [compute_loop_step _ _ _ _ _ (by norm_num [normSq]) hi]
    have hz : cadd (cpow2 ⟨0, 0⟩) ⟨0, 0⟩ = (⟨0, 0⟩ : Cplx) := by simp [cadd, cpow2]
    rw [hz]
    apply ih
    push_cast at h; omega

/-- C5: for every `max ≥ 0`, `compute_point(0, 0, max)` returns exactly `max`. -/
theorem compute_point_origin (max : Int) (hmax : 0 ≤ max) : compute_point 0 0 max = max := by
  unfold compute_point
  apply compute_loop_origin
  rw [Int.toNat_of_nonneg hmax]; simp

/-- Witness for C5 at `max = 500`, the budget `main` starts with. -/
theorem compute_point_origin_witness : (0 : Int) ≤ 500 ∧ compute_point 0 0 500 = 500 :=
  ⟨by decide, compute_point_origin 500 (by decide)⟩

/-! ### Navigation commands -/

/-- Both zoom functions keep the length of each range: they add the same
quarter range to both ends. -/
theorem zoom_keeps_range (xmin xmax ymin ymax : ℚ) (maxiter : Int) (num_threads : Nat) :
    (zoom_in xmin xmax ymin ymax maxiter num_threads).xmax -
        (zoom_in xmin xmax ymin ymax maxiter num_threads).xmin = xmax - xmin ∧
    (zoom_in xmin xmax ymin ymax maxiter num_threads).ymax -
        (zoom_in xmin xmax ymin ymax maxiter num_threads).ymin = ymax - ymin ∧
    (zoom_out xmin xmax ymin ymax maxiter num_threads).xmax -
        (zoom_out xmin xmax ymin ymax maxiter num_threads).xmin = xmax - xmin ∧
    (zoom_out xmin xmax ymin ymax maxiter num_threads).ymax -
        (zoom_out xmin xmax ymin ymax maxiter num_threads).ymin = ymax - ymin := by
  simp only [zoom_in, zoom_out]
  refine ⟨?_, ?_, ?_, ?_⟩ <;> ring

/-- C6 (the code at the failing input): from the initial viewport
`(-1.5, 0.5, -1, 1)` the function `zoom_in` renders `(-2, 0, -1.5, 0.5)`, a
shift of both axes by a quarter range with both ranges still 2, and `zoom_out`
renders `(-1, 1, -0.5, 1.5)`; halving about the centre would give
`(-1, 0, -0.5, 0.5)`. -/
theorem zoom_in_shifts_initial_view :
    zoom_in (-3/2) (1/2) (-1) 1 500 1 = ⟨-2, 0, -3/2, 1/2, 500, 1⟩ ∧
    zoom_out (-3/2) (1/2) (-1) 1 500 1 = ⟨-1, 1, -1/2, 3/2, 500, 1⟩ ∧
    (zoom_in (-3/2) (1/2) (-1) 1 500 1).xmin ≠ -3/2 + (1/2 - -3/2) / 4 := by
  refine ⟨?_, ?_, ?_⟩ <;> norm_num [zoom_in, zoom_out]

/-- C7: for every viewport, `zoom_in` followed by `zoom_out` on its result
hands the renderer the original four bounds (and the same `maxiter` and
`num_threads`). -/
theorem zoom_out_zoom_in (xmin xmax ymin ymax : ℚ) (maxiter : Int) (num_threads : Nat) :
    zoom_out (zoom_in xmin xmax ymin ymax maxiter num_threads).xmin
        (zoom_in xmin xmax ymin ymax maxiter num_threads).xmax
        (zoom_in xmin xmax ymin ymax maxiter num_threads).ymin
        (zoom_in xmin xmax ymin ymax maxiter num_threads).ymax
        (zoom_in xmin xmax ymin ymax maxiter num_threads).maxiter
        (zoom_in xmin xmax ymin ymax maxiter num_threads).num_threads
      = ⟨xmin, xmax, ymin, ymax, maxiter, num_threads⟩ := by
  simp only [zoom_in, zoom_out, RenderCall.mk.injEq, and_true]
  refine ⟨?_, ?_, ?_, ?_⟩ <;> ring

/-- No command changes the viewport or `maxiter` held by `main`: after the
`switch` they are what they were before it. -/
theorem main_step_keeps_view (width height : Nat) (s s' : MainState) (e : Event)
    (r : Option RenderCall) (h : main_step width height s e = some (s', r)) :
    s'.xmin = s.xmin ∧ s'.xmax = s.xmax ∧ s'.ymin = s.ymin ∧ s'.ymax = s.ymax ∧
      s'.maxiter = s.maxiter := by
  have hite : ∀ (p : Prop) [Decidable p] (a b : Option (MainState × Option RenderCall)),
      (a = some (s', r) → s'.xmin = s.xmin ∧ s'.xmax = s.xmax ∧ s'.ymin = s.ymin ∧
        s'.ymax = s.ymax ∧ s'.maxiter = s.maxiter) →
      (b = some (s', r) → s'.xmin = s.xmin ∧ s'.xmax = s.xmax ∧ s'.ymin = s.ymin ∧
        s'.ymax = s.ymax ∧ s'.maxiter = s.maxiter) →
      ((if p then a else b) = some (s', r) → s'.xmin = s.xmin ∧ s'.xmax = s.xmax ∧
        s'.ymin = s.ymin ∧ s'.ymax = s.ymax ∧ s'.maxiter = s.maxiter) := by
    intro p _ a b ha hb
    by_cases hp : p
    · rw [if_pos hp]; exact ha
    · rw [if_neg hp]; exact hb
  revert h
  unfold main_step
  repeat (refine hite _ _ _ (fun h => by cases h <;> exact ⟨rfl, rfl, rfl, rfl, rfl⟩) ?_)
  intro h
  cases h
  exact ⟨rfl, rfl, rfl, rfl, rfl⟩

/-- C8 (the code at the failing input): after two pan-right commands `main`
has requested three passes, and the third has the same rectangle as the
second, `(-1, 1, -1, 1)`: one quarter-range from the initial one, where
adopting the result of the first command would give `(-0.5, 1.5, -1, 1)`. -/
theorem main_two_pan_right :
    main [⟨key 'r', 0, 0⟩, ⟨key 'r', 0, 0⟩] =
      [⟨-3/2, 1/2, -1, 1, 500, 1⟩, ⟨-1, 1, -1, 1, 500, 1⟩, ⟨-1, 1, -1, 1, 500, 1⟩] ∧
    spec_loop 640 480 main_init [⟨key 'r', 0, 0⟩, ⟨key 'r', 0, 0⟩] =
      [⟨-1, 1, -1, 1, 500, 1⟩, ⟨-1/2, 3/2, -1, 1, 500, 1⟩] := by
  constructor
  · simp only [main, main_loop, main_step, main_init, if_true, Option.toList, List.cons_append,
      List.nil_append, move_right]
    norm_num
  · simp only [spec_loop, main_step, main_init, if_true, move_right]
    norm_num

/-- C9: on a surface with `width, height > 0`, `recenter` renders the rectangle
`[cx - xr, cx + xr] × [cy - yr, cy + yr]`, where `xr`, `yr` are the old full
ranges and `(cx, cy)` is the coordinate of the clicked pixel under the
pixel-to-coordinate scaling; its midpoint is `(cx, cy)` and its width and
height are twice the old ones. -/
theorem recenter_view (width height : Nat) (xpos ypos : Int)
    (xmin xmax ymin ymax : ℚ) (maxiter : Int) (num_threads : Nat)
    (_hw : 0 < width) (_hh : 0 < height) :
    (recenter width height xpos ypos xmin xmax ymin ymax maxiter num_threads) =
      ⟨scale xmin xmax width xpos - (xmax - xmin), scale xmin xmax width xpos + (xmax - xmin),
       scale ymin ymax height ypos - (ymax - ymin), scale ymin ymax height ypos + (ymax - ymin),
       maxiter, num_threads⟩ ∧
    ((recenter width height xpos ypos xmin xmax ymin ymax maxiter num_threads).xmin +
      (recenter width height xpos ypos xmin xmax ymin ymax maxiter num_threads).xmax) / 2
        = scale xmin xmax width xpos ∧
    ((recenter width height xpos ypos xmin xmax ymin ymax maxiter num_threads).ymin +
      (recenter width height xpos ypos xmin xmax ymin ymax maxiter num_threads).ymax) / 2
        = scale ymin ymax height ypos ∧
    (recenter width height xpos ypos xmin xmax ymin ymax maxiter num_threads).xmax -
      (recenter width height xpos ypos xmin xmax ymin ymax maxiter num_threads).xmin
        = 2 * (xmax - xmin) ∧
    (recenter width height xpos ypos xmin xmax ymin ymax maxiter num_threads).ymax -
      (recenter width height xpos ypos xmin xmax ymin ymax maxiter num_threads).ymin
        = 2 * (ymax - ymin) := by
  simp only [recenter, scale, RenderCall.mk.injEq, and_true]
  refine ⟨⟨?_, ?_, ?_, ?_⟩, ?_, ?_, ?_, ?_⟩ <;> ring

/-- Witness for C9: a click at pixel `(160, 120)` of the `640 × 480` window on
the initial viewport renders `(-3, 1, -2.5, 1.5)`, centred at `(-1, -0.5)`. -/
theorem recenter_view_witness :
    (0 < 640 ∧ 0 < 480) ∧
    recenter 640 480 160 120 (-3/2) (1/2) (-1) 1 500 1 =
      ⟨scale (-3/2) (1/2) 640 160 - (1/2 - -3/2), scale (-3/2) (1/2) 640 160 + (1/2 - -3/2),
       scale (-1) 1 480 120 - (1 - -1), scale (-1) 1 480 120 + (1 - -1), 500, 1⟩ ∧
    scale (-3/2) (1/2) 640 160 = -1 ∧ scale (-1) 1 480 120 = -1/2 :=
  ⟨⟨by decide, by decide⟩,
    (recenter_view 640 480 160 120 (-3/2) (1/2) (-1) 1 500 1 (by decide) (by decide)).1,
    by norm_num [scale], by norm_num [scale]⟩

/-! ### Starting the workers -/

/-- When no return code is negative the loop of `create_threads` runs to its
end, and the workers started are those whose `pthread_create` returned 0. -/
theorem spawn_loop_nonneg (rc : Nat → Int) (hrc : ∀ i, 0 ≤ rc i) (n : Nat) :
    ∀ (i : Nat) (started : List Nat),
      spawn_loop rc n i started =
        Except.ok (started ++ (List.range' i n).filter (fun k => rc k = 0)) := by
  induction n with
  | zero => intro i started; simp [spawn_loop]
  | succ n ih =>
    intro i started
    have h : ¬ rc i < 0 := not_lt.mpr (hrc i)
    rw [spawn_loop, if_neg h, ih]
    by_cases h0 : rc i = 0
    · simp [List.range'_succ, List.filter_cons, h0]
    · simp [List.range'_succ, List.filter_cons, h0]

/-- When every `pthread_create` succeeds, workers `0 .. num_threads-1` run. -/
theorem spawn_loop_success (n : Nat) :
    spawn_loop (fun _ => 0) n 0 [] = Except.ok (List.range n) := by
  rw [spawn_loop_nonneg _ (fun _ => le_refl 0)]
  simp [List.range_eq_range']

/-- When every `pthread_create` succeeds, every `pthread_join` is given a
handle that was written. -/
theorem join_loop_success (n : Nat) : ∀ i : Nat, join_loop (fun _ => 0) n i = Except.ok () := by
  induction n with
  | zero => intro i; rfl
  | succ n ih => intro i; rw [join_loop, if_pos rfl, ih]

/-- The loop of joins reaches a handle that was never written exactly when
some `pthread_create` in its range did not return 0. -/
theorem join_loop_failure (rc : Nat → Int) (n : Nat) :
    ∀ i : Nat, (∃ k, i ≤ k ∧ k < i + n ∧ rc k ≠ 0) →
      join_loop rc n i = Except.error Stop.undefined := by
  induction n with
  | zero => rintro i ⟨k, h1, h2, -⟩; omega
  | succ n ih =>
    rintro i ⟨k, h1, h2, h3⟩
    by_cases h0 : rc i = 0
    · rw [join_loop, if_pos h0]
      apply ih
      refine ⟨k, ?_, by omega, h3⟩
      rcases Nat.eq_or_lt_of_le h1 with e | l
      · rw [← e] at h3; exact absurd h0 h3
      · exact l
    · rw [join_loop, if_neg h0]

/-- When every `pthread_create` succeeds, `create_threads` of
`fractalthread.c` runs worker `k` on `args[k]` for `k = 0 .. num_threads-1`. -/
theorem Thread.create_threads_success (height : Nat) (xmin xmax ymin ymax : ℚ) (maxiter : Int)
    (num_threads : Nat) :
    Thread.create_threads (fun _ => 0) height xmin xmax ymin ymax maxiter num_threads =
      Except.ok ((List.range num_threads).map
        (Thread.make_args height xmin xmax ymin ymax maxiter num_threads)) := by
  simp [Thread.create_threads, spawn_loop_success, join_loop_success]

/-- Band `k` of `N` on height `H` holds row `r` exactly when `k = r / (H/N)`,
for a row below `N * (H/N)`. -/
theorem band_iff (H N r k : Nat) (hr : r < N * (H / N)) :
    (k * (H / N) ≤ r ∧ r < (k + 1) * (H / N)) ↔ k = r / (H / N) := by
  have hq : 0 < H / N := by
    rcases Nat.eq_zero_or_pos (H / N) with h | h
    · rw [h] at hr; simp at hr
    · exact h
  constructor
  · rintro ⟨h1, h2⟩
    symm
    apply Nat.div_eq_of_lt_le
    · exact h1
    · exact h2
  · rintro rfl
    refine ⟨Nat.div_mul_le_self r (H / N), ?_⟩
    rw [Nat.mul_comm]
    exact Nat.lt_mul_div_succ r hq

/-- C1: for every worker count `N` (so for every `N ≥ 1`) and height `H`,
`create_threads` gives worker `k` the row band `[k*(H/N), (k+1)*(H/N))` for `k = 0..N-1`; the bands
are pairwise disjoint, every row of `[0, N*(H/N))` lies in exactly one band
and no row from `N*(H/N)` on lies in any band. -/
theorem static_partition (H N : Nat) (xmin xmax ymin ymax : ℚ) (maxiter : Int) :
    ∃ ws : List Thread.thread_args,
      Thread.create_threads (fun _ => 0) H xmin xmax ymin ymax maxiter N = Except.ok ws ∧
      ws.length = N ∧
      (∀ k, k < N → ∃ a : Thread.thread_args, ws[k]? = some a ∧ a.start = k * (H / N) ∧ a.end_ = (k + 1) * (H / N)) ∧
      (∀ (k₁ k₂ : Nat) (a₁ a₂ : Thread.thread_args) (r : Nat), ws[k₁]? = some a₁ → ws[k₂]? = some a₂ →
        (a₁.start ≤ r ∧ r < a₁.end_) → (a₂.start ≤ r ∧ r < a₂.end_) → k₁ = k₂) ∧
      (∀ r, r < N * (H / N) → ∃! k : Nat, ∃ a : Thread.thread_args, ws[k]? = some a ∧ a.start ≤ r ∧ r < a.end_) ∧
      (∀ r, N * (H / N) ≤ r → ∀ a ∈ ws, ¬ (a.start ≤ r ∧ r < a.end_)) := by
  have hget : ∀ k a, ((List.range N).map
      (Thread.make_args H xmin xmax ymin ymax maxiter N))[k]? = some a ↔
      k < N ∧ a = Thread.make_args H xmin xmax ymin ymax maxiter N k := by
    intro k a
    rw [List.getElem?_map]
    by_cases hk : k < N
    · rw [List.getElem?_range hk]
      simp [hk, eq_comm]
    · rw [List.getElem?_eq_none (by simpa using hk)]
      simp [hk]
  have hlow : ∀ k a r, k < N → a = Thread.make_args H xmin xmax ymin ymax maxiter N k →
      a.start ≤ r → r < a.end_ → r < N * (H / N) := by
    intro k a r hk ha _ h2
    subst ha
    have : (k + 1) * (H / N) ≤ N * (H / N) := Nat.mul_le_mul_right _ hk
    exact lt_of_lt_of_le h2 this
  refine ⟨_, Thread.create_threads_success H xmin xmax ymin ymax maxiter N, by simp, ?_, ?_, ?_, ?_⟩
  · intro k hk
    exact ⟨_, (hget k _).mpr ⟨hk, rfl⟩, rfl, rfl⟩
  · intro k₁ k₂ a₁ a₂ r h₁ h₂ hb₁ hb₂
    obtain ⟨hk₁, ha₁⟩ := (hget k₁ a₁).mp h₁
    obtain ⟨hk₂, ha₂⟩ := (hget k₂ a₂).mp h₂
    have hr := hlow k₁ a₁ r hk₁ ha₁ hb₁.1 hb₁.2
    subst ha₁ ha₂
    rw [(band_iff H N r k₁ hr).mp hb₁, (band_iff H N r k₂ hr).mp hb₂]
  · intro r hr
    have hq : 0 < H / N := by
      rcases Nat.eq_zero_or_pos (H / N) with h | h
      · rw [h] at hr; simp at hr
      · exact h
    have hk : r / (H / N) < N := (Nat.div_lt_iff_lt_mul hq).mpr hr
    refine ⟨r / (H / N), ⟨_, (hget _ _).mpr ⟨hk, rfl⟩, ?_⟩, ?_⟩
    · exact (band_iff H N r _ hr).mpr rfl
    · rintro k ⟨a, ha, hb⟩
      obtain ⟨_, ha⟩ := (hget _ _).mp ha
      subst ha
      exact (band_iff H N r k hr).mp hb
  · intro r hr a ha hb
    rw [List.mem_map] at ha
    obtain ⟨k, hk, rfl⟩ := ha
    rw [List.mem_range] at hk
    exact absurd (hlow k _ r hk rfl hb.1 hb.2) (not_lt.mpr hr)

/-! ### Failure of `pthread_create` -/

/-- Whatever non-negative codes `pthread_create` returns (0 or a positive
error number), neither `create_threads` reaches `exit(1)`; and when one of
the `num_threads` codes is positive, both reach the join of a handle that was
never written. -/
theorem create_threads_never_exits (rc : Nat → Int) (hrc : ∀ i, 0 ≤ rc i)
    (sched : List Nat) (width height : Nat) (xmin xmax ymin ymax : ℚ) (maxiter : Int)
    (num_threads : Nat) :
    (∀ code, Thread.create_threads rc height xmin xmax ymin ymax maxiter num_threads
      ≠ Except.error (Stop.exited code)) ∧
    (∀ code, Task.create_threads rc sched width height xmin xmax ymin ymax maxiter num_threads
      ≠ Except.error (Stop.exited code)) ∧
    ((∃ k, k < num_threads ∧ rc k ≠ 0) →
      Thread.create_threads rc height xmin xmax ymin ymax maxiter num_threads
        = Except.error Stop.undefined ∧
      Task.create_threads rc sched width height xmin xmax ymin ymax maxiter num_threads
        = Except.error Stop.undefined) := by
  refine ⟨?_, ?_, ?_⟩
  · intro code
    rw [Thread.create_threads, spawn_loop_nonneg rc hrc]
    dsimp only
    have hj : ∀ n i, join_loop rc n i ≠ Except.error (Stop.exited code) := by
      intro n
      induction n with
      | zero => intro i h; simp [join_loop] at h
      | succ n ih =>
        intro i
        rw [join_loop]
        split
        · exact ih (i + 1)
        · intro h; simp at h
    cases hjl : join_loop rc num_threads 0 with
    | error e =>
      intro h
      simp only [Except.error.injEq] at h
      rw [h] at hjl
      exact hj _ _ hjl
    | ok u => intro h; simp at h
  · intro code
    rw [Task.create_threads, spawn_loop_nonneg rc hrc]
    dsimp only
    have hj : ∀ n i, join_loop rc n i ≠ Except.error (Stop.exited code) := by
      intro n
      induction n with
      | zero => intro i h; simp [join_loop] at h
      | succ n ih =>
        intro i
        rw [join_loop]
        split
        · exact ih (i + 1)
        · intro h; simp at h
    cases hjl : join_loop rc num_threads 0 with
    | error e =>
      intro h
      simp only [Except.error.injEq] at h
      rw [h] at hjl
      exact hj _ _ hjl
    | ok u => intro h; simp at h
  · rintro ⟨k, hk, hne⟩
    have hjl := join_loop_failure rc num_threads 0 ⟨k, Nat.zero_le k, by omega, hne⟩
    constructor
    · rw [Thread.create_threads, spawn_loop_nonneg rc hrc]
      dsimp only
      rw [hjl]
    · rw [Task.create_threads, spawn_loop_nonneg rc hrc]
      dsimp only
      rw [hjl]

/-- C10 (the code at the failing input): with two workers requested on the
surface of `main`, when the first `pthread_create` fails with `EAGAIN` (11)
and the second succeeds, neither `create_threads` ends with `exit(1)`: the
loop goes on and starts worker 1, and the loop of joins then calls
`pthread_join` on `p[0]`, which was never written, so the behaviour is
undefined. -/
theorem create_threads_ignores_failure :
    spawn_loop (fun i => if i = 0 then 11 else 0) 2 0 [] = Except.ok [1] ∧
    Thread.create_threads (fun i => if i = 0 then 11 else 0) 480 (-3/2) (1/2) (-1) 1 500 2 =
      Except.error Stop.undefined ∧
    Thread.create_threads (fun i => if i = 0 then 11 else 0) 480 (-3/2) (1/2) (-1) 1 500 2 ≠
      Except.error (Stop.exited 1) ∧
    (∀ sched : List Nat,
      Task.create_threads (fun i => if i = 0 then 11 else 0) sched 640 480
          (-3/2) (1/2) (-1) 1 500 2 = Except.error Stop.undefined ∧
      Task.create_threads (fun i => if i = 0 then 11 else 0) sched 640 480
          (-3/2) (1/2) (-1) 1 500 2 ≠ Except.error (Stop.exited 1)) := by
  have h1 : Thread.create_threads (fun i => if i = 0 then 11 else 0) 480
      (-3/2) (1/2) (-1) 1 500 2 = Except.error Stop.undefined := by
    simp [Thread.create_threads, spawn_loop, join_loop]
  have h2 : ∀ sched : List Nat,
      Task.create_threads (fun i => if i = 0 then 11 else 0) sched 640 480
        (-3/2) (1/2) (-1) 1 500 2 = Except.error Stop.undefined := by
    intro sched
    simp [Task.create_threads, spawn_loop, join_loop]
  refine ⟨by simp [spawn_loop], h1, ?_, ?_⟩
  · rw [h1]; simp
  · intro sched
    refine ⟨h2 sched, ?_⟩
    rw [h2 sched]; simp

/-! ### The task table of `fractaltask.c` -/

namespace Task

/-- The table after the inner initialisation loop. -/
theorem init_row_apply (i : Nat) (n : Nat) :
    ∀ (j : Nat) (t : Tasks) (a b : Nat),
      init_row i n j t a b =
        if a = i ∧ j ≤ b ∧ b < j + n then ⟨0, (b : Int) * 20, (i : Int) * 20⟩ else t a b := by
  induction n with
  | zero => intro j t a b; rw [init_row, if_neg (by omega)]
  | succ n ih =>
    intro j t a b
    rw [init_row, ih]
    by_cases h1 : a = i ∧ j + 1 ≤ b ∧ b < j + 1 + n
    · rw [if_pos h1, if_pos ⟨h1.1, by omega, by omega⟩]
    · rw [if_neg h1]
      by_cases h2 : a = i ∧ b = j
      · rw [Tasks.set, if_pos h2, if_pos ⟨h2.1, by omega, by omega⟩, h2.2]
      · rw [Tasks.set, if_neg h2, if_neg]
        intro h3
        rcases Nat.lt_or_ge j b with h | h
        · exact h1 ⟨h3.1, h, by omega⟩
        · exact h2 ⟨h3.1, by omega⟩

/-- The table after the outer initialisation loop. -/
theorem init_rows_apply (x_size : Nat) (n : Nat) :
    ∀ (i : Nat) (t : Tasks) (a b : Nat),
      init_rows x_size n i t a b =
        if i ≤ a ∧ a < i + n ∧ b < x_size then ⟨0, (b : Int) * 20, (a : Int) * 20⟩
        else t a b := by
  induction n with
  | zero => intro i t a b; rw [init_rows, if_neg (by omega)]
  | succ n ih =>
    intro i t a b
    rw [init_rows, ih, init_row_apply]
    by_cases h1 : i + 1 ≤ a ∧ a < i + 1 + n ∧ b < x_size
    · rw [if_pos h1, if_pos ⟨by omega, by omega, h1.2.2⟩]
    · rw [if_neg h1]
      by_cases h2 : a = i ∧ 0 ≤ b ∧ b < 0 + x_size
      · rw [if_pos h2, if_pos ⟨by omega, by omega, by omega⟩, h2.1]
      · rw [if_neg h2, if_neg]
        intro h3
        rcases Nat.lt_or_ge i a with h | h
        · exact h1 ⟨h, by omega, h3.2.2⟩
        · exact h2 ⟨by omega, by omega, by omega⟩

/-- The freshly initialised table: tile `(i, j)` of the grid has `done = 0`,
`x = j*20`, `y = i*20`; everything else is as `calloc` left it. -/
theorem init_tasks_apply (width height a b : Nat) :
    init_tasks width height a b =
      if a < height / 20 ∧ b < width / 20 then ⟨0, (b : Int) * 20, (a : Int) * 20⟩
      else ⟨0, 0, 0⟩ := by
  rw [init_tasks, init_rows_apply]
  by_cases h : a < height / 20 ∧ b < width / 20
  · rw [if_pos h, if_pos ⟨by omega, by omega, h.2⟩]
  · rw [if_neg h, if_neg (by omega)]
    rfl

/-- The freshly initialised table is a grid. -/
theorem init_tasks_grid (width height : Nat) :
    Grid (width / 20) (height / 20) (init_tasks width height) := by
  intro i j hi hj
  rw [init_tasks_apply, if_pos ⟨hi, hj⟩]
  exact ⟨rfl, rfl, Or.inl rfl⟩

/-- The search of one row either finds nothing and changes nothing, or stops
at the first tile of the row with `done == 0`, marks it and returns its
coordinates. -/
theorem scan_row_cases (i : Nat) (s : Scan) (n : Nat) :
    ∀ j : Nat,
      (scan_row i n j s = s ∧ ∀ b, j ≤ b → b < j + n → (s.tasks i b).done ≠ 0) ∨
      (∃ j₀, j ≤ j₀ ∧ j₀ < j + n ∧ (s.tasks i j₀).done = 0 ∧
        (∀ b, j ≤ b → b < j₀ → (s.tasks i b).done ≠ 0) ∧
        scan_row i n j s =
          ⟨s.tasks.set i j₀ { s.tasks i j₀ with done := 1 },
            (s.tasks i j₀).x, (s.tasks i j₀).y⟩) := by
  induction n with
  | zero => intro j; left; exact ⟨rfl, fun b h1 h2 => by omega⟩
  | succ n ih =>
    intro j
    by_cases h : (s.tasks i j).done = 0
    · right
      refine ⟨j, le_refl j, by omega, h, fun b h1 h2 => by omega, ?_⟩
      rw [scan_row, if_pos h]
    · rcases ih (j + 1) with ⟨h1, h2⟩ | ⟨j₀, h1, h2, h3, h4, h5⟩
      · left
        refine ⟨by rw [scan_row, if_neg h, h1], ?_⟩
        intro b hb1 hb2
        rcases Nat.eq_or_lt_of_le hb1 with e | l
        · rw [← e]; exact h
        · exact h2 b l (by omega)
      · right
        refine ⟨j₀, by omega, by omega, h3, ?_, by rw [scan_row, if_neg h, h5]⟩
        intro b hb1 hb2
        rcases Nat.eq_or_lt_of_le hb1 with e | l
        · rw [← e]; exact h
        · exact h4 b l hb2

/-- The search of the rows, started with `x_task` or `y_task` negative on a
table whose tiles have non-negative coordinates: either it finds nothing and
changes nothing, or it stops at the first tile in row-major order with
`done == 0`, marks it and returns its coordinates. -/
theorem scan_rows_cases (x_size : Nat) (s : Scan)
    (hs : ¬ (0 ≤ s.x_task ∧ 0 ≤ s.y_task)) (n : Nat) :
    ∀ i : Nat,
      (∀ a b, i ≤ a → a < i + n → b < x_size →
        0 ≤ (s.tasks a b).x ∧ 0 ≤ (s.tasks a b).y) →
      (scan_rows x_size n i s = s ∧
        ∀ a b, i ≤ a → a < i + n → b < x_size → (s.tasks a b).done ≠ 0) ∨
      (∃ i₀ j₀, i ≤ i₀ ∧ i₀ < i + n ∧ j₀ < x_size ∧ (s.tasks i₀ j₀).done = 0 ∧
        (∀ a b, i ≤ a → a < i₀ → b < x_size → (s.tasks a b).done ≠ 0) ∧
        (∀ b, b < j₀ → (s.tasks i₀ b).done ≠ 0) ∧
        scan_rows x_size n i s =
          ⟨s.tasks.set i₀ j₀ { s.tasks i₀ j₀ with done := 1 },
            (s.tasks i₀ j₀).x, (s.tasks i₀ j₀).y⟩) := by
  induction n with
  | zero => intro i _; left; exact ⟨rfl, fun a b h1 h2 => by omega⟩
  | succ n ih =>
    intro i hpos
    rcases scan_row_cases i s x_size 0 with ⟨h1, h2⟩ | ⟨j₀, -, h2, h3, h4, h5⟩
    · have hpos1 : ∀ a b, i + 1 ≤ a → a < i + 1 + n → b < x_size →
          0 ≤ (s.tasks a b).x ∧ 0 ≤ (s.tasks a b).y :=
        fun a b ha1 ha2 hb => hpos a b (by omega) (by omega) hb
      have hstep : scan_rows x_size (n + 1) i s = scan_rows x_size n (i + 1) s := by
        rw [scan_rows, h1, if_neg hs]
      rcases ih (i + 1) hpos1 with ⟨g1, g2⟩ | ⟨i₀, j₁, g1, g2, g3, g4, g5, g6, g7⟩
      · left
        refine ⟨by rw [hstep, g1], ?_⟩
        intro a b ha1 ha2 hb
        rcases Nat.eq_or_lt_of_le ha1 with e | l
        · rw [← e]; exact h2 b (Nat.zero_le b) (by omega)
        · exact g2 a b l (by omega) hb
      · right
        refine ⟨i₀, j₁, by omega, by omega, g3, g4, ?_, g6, by rw [hstep, g7]⟩
        intro a b ha1 ha2 hb
        rcases Nat.eq_or_lt_of_le ha1 with e | l
        · rw [← e]; exact h2 b (Nat.zero_le b) (by omega)
        · exact g5 a b l ha2 hb
    · right
      have hj : j₀ < x_size := by omega
      have hp := hpos i j₀ (le_refl i) (by omega) hj
      refine ⟨i, j₀, le_refl i, by omega, hj, h3, fun a b h1 h2 => by omega,
        fun b hb => h4 b (Nat.zero_le b) hb, ?_⟩
      rw [scan_rows, h5, if_pos ⟨hp.1, hp.2⟩]

/-- One claim on a grid: either no tile has `done == 0`, and the claim returns
"no work" (`x_task = y_task = -1`) and leaves the table as it was; or it
returns the first tile in row-major order with `done == 0`, and the only
change to the table is that this tile now has `done == 1`. -/
theorem claim_cases (x_size y_size : Nat) (t : Tasks) (hg : Grid x_size y_size t) :
    (claim x_size y_size t = ⟨t, -1, -1⟩ ∧
      ∀ i j, i < y_size → j < x_size → (t i j).done ≠ 0) ∨
    (∃ i₀ j₀, i₀ < y_size ∧ j₀ < x_size ∧ (t i₀ j₀).done = 0 ∧
      (∀ a b, a < i₀ → b < x_size → (t a b).done ≠ 0) ∧
      (∀ b, b < j₀ → (t i₀ b).done ≠ 0) ∧
      claim x_size y_size t =
        ⟨t.set i₀ j₀ ⟨1, (j₀ : Int) * 20, (i₀ : Int) * 20⟩,
          (j₀ : Int) * 20, (i₀ : Int) * 20⟩) := by
  have hs : ¬ (0 ≤ (⟨t, -1, -1⟩ : Scan).x_task ∧ 0 ≤ (⟨t, -1, -1⟩ : Scan).y_task) := by
    simp
  have hpos : ∀ a b, 0 ≤ a → a < 0 + y_size → b < x_size →
      0 ≤ ((⟨t, -1, -1⟩ : Scan).tasks a b).x ∧ 0 ≤ ((⟨t, -1, -1⟩ : Scan).tasks a b).y := by
    intro a b _ ha hb
    obtain ⟨hx, hy, -⟩ := hg a b (by omega) hb
    show 0 ≤ (t a b).x ∧ 0 ≤ (t a b).y
    rw [hx, hy]
    constructor <;> positivity
  rcases scan_rows_cases x_size ⟨t, -1, -1⟩ hs y_size 0 hpos with
    ⟨h1, h2⟩ | ⟨i₀, j₀, -, h2, h3, h4, h5, h6, h7⟩
  · left
    exact ⟨h1, fun i j hi hj => h2 i j (Nat.zero_le i) (by omega) hj⟩
  · right
    have hi : i₀ < y_size := by omega
    obtain ⟨hx, hy, -⟩ := hg i₀ j₀ hi h3
    refine ⟨i₀, j₀, hi, h3, h4, fun a b ha hb => h5 a b (Nat.zero_le a) ha hb, h6, ?_⟩
    show scan_rows x_size y_size 0 ⟨t, -1, -1⟩ = _
    rw [h7]
    show (⟨t.set i₀ j₀ ⟨1, (t i₀ j₀).x, (t i₀ j₀).y⟩, (t i₀ j₀).x, (t i₀ j₀).y⟩ : Scan) = _
    rw [hx, hy]

/-- One turn of a worker on a pass whose table is a grid: nothing happens (the
worker is not running), or the worker finds every tile done and leaves, or it
claims the first tile with `done == 0` and draws it. -/
theorem worker_step_cases (thread : thread_args) (width height : Nat) (started : List Nat)
    (s : Pass) (w : Nat) (hg : Grid (width / 20) (height / 20) s.tasks) :
    (¬ (w ∈ started ∧ w ∉ s.exited) ∧ worker_step thread width height started s w = s) ∨
    ((∀ i j, i < height / 20 → j < width / 20 → (s.tasks i j).done ≠ 0) ∧
      w ∈ started ∧
      worker_step thread width height started s w =
        ⟨s.tasks, w :: s.exited, s.claims, s.surface⟩) ∨
    (∃ i₀ j₀, i₀ < height / 20 ∧ j₀ < width / 20 ∧ (s.tasks i₀ j₀).done = 0 ∧
      w ∈ started ∧ w ∉ s.exited ∧
      worker_step thread width height started s w =
        ⟨s.tasks.set i₀ j₀ ⟨1, (j₀ : Int) * 20, (i₀ : Int) * 20⟩, s.exited,
          s.claims ++ [(w, (j₀ : Int) * 20, (i₀ : Int) * 20)],
          s.surface ++ tile_writes thread width height ((j₀ : Int) * 20) ((i₀ : Int) * 20)⟩) := by
  by_cases hw : w ∈ started ∧ w ∉ s.exited
  · rcases claim_cases (width / 20) (height / 20) s.tasks hg with
      ⟨h1, h2⟩ | ⟨i₀, j₀, h1, h2, h3, -, -, h6⟩
    · right; left
      refine ⟨h2, hw.1, ?_⟩
      rw [worker_step, if_pos hw, h1]
      simp
    · right; right
      refine ⟨i₀, j₀, h1, h2, h3, hw.1, hw.2, ?_⟩
      rw [worker_step, if_pos hw, h6]
      have hx : ¬ ((j₀ : Int) * 20 < 0 ∨ (i₀ : Int) * 20 < 0) := by omega
      simp only [hx, if_false]
  · left
    exact ⟨hw, by rw [worker_step, if_neg hw]⟩

/-- The invariant holds when the workers start. -/
theorem init_pass_inv (thread : thread_args) (width height : Nat) :
    Inv thread width height (init_pass width height) := by
  refine ⟨init_tasks_grid width height, ?_, ?_, ?_, ?_⟩
  · intro i j hi hj
    have h : (init_tasks width height i j).done = 0 := by
      rw [init_tasks_apply, if_pos ⟨hi, hj⟩]
    simp [init_pass, h]
  · intro c hc
    simp [init_pass] at hc
  · intro h
    simp [init_pass] at h
  · simp [init_pass]

/-- Every turn of a worker keeps the invariant. -/
theorem worker_step_inv (thread : thread_args) (width height : Nat) (started : List Nat)
    (s : Pass) (w : Nat) (h : Inv thread width height s) :
    Inv thread width height (worker_step thread width height started s w) := by
  obtain ⟨hg, hcount, hmem, hex, hsurf⟩ := h
  rcases worker_step_cases thread width height started s w hg with
    ⟨-, e⟩ | ⟨hdone, -, e⟩ | ⟨i₀, j₀, hi₀, hj₀, h0, -, -, e⟩
  · rw [e]; exact ⟨hg, hcount, hmem, hex, hsurf⟩
  · rw [e]
    refine ⟨hg, hcount, hmem, ?_, hsurf⟩
    intro _ i j hi hj
    rcases (hg i j hi hj).2.2 with h | h
    · exact absurd h (hdone i j hi hj)
    · exact h
  · rw [e]
    have hall : s.exited = [] := by
      by_contra hne
      have := hex hne i₀ j₀ hi₀ hj₀
      rw [h0] at this
      exact absurd this (by decide)
    refine ⟨?_, ?_, ?_, ?_, ?_⟩
    · intro i j hi hj
      dsimp only
      by_cases hij : i = i₀ ∧ j = j₀
      · rw [Tasks.set, if_pos hij, hij.1, hij.2]
        exact ⟨rfl, rfl, Or.inr rfl⟩
      · rw [Tasks.set, if_neg hij]
        exact hg i j hi hj
    · intro i j hi hj
      dsimp only
      rw [List.map_append, List.count_append, hcount i j hi hj]
      by_cases hij : i = i₀ ∧ j = j₀
      · rw [Tasks.set, if_pos hij, hij.1, hij.2, h0]
        simp
      · rw [Tasks.set, if_neg hij]
        have hne : ((j₀ : Int) * 20, (i₀ : Int) * 20) ≠ ((j : Int) * 20, (i : Int) * 20) := by
          intro heq
          rw [Prod.mk.injEq] at heq
          apply hij
          constructor <;> omega
        simp [List.count_cons, hne]
    · intro c hc
      rw [List.mem_append, List.mem_singleton] at hc
      rcases hc with hc | hc
      · exact hmem c hc
      · exact ⟨i₀, j₀, hi₀, hj₀, by rw [hc]⟩
    · intro hne
      exact absurd hall hne
    · show s.surface ++ _ = (s.claims ++ [_]).flatMap _
      rw [List.flatMap_append, hsurf]
      simp

/-- The invariant holds after every schedule. -/
theorem run_inv (thread : thread_args) (width height : Nat) (started sched : List Nat) :
    Inv thread width height (run thread width height started sched) := by
  unfold run
  have key : ∀ (l : List Nat) (s : Pass), Inv thread width height s →
      Inv thread width height (l.foldl (worker_step thread width height started) s) := by
    intro l
    induction l with
    | nil => intro s hs; exact hs
    | cons w ws ih =>
      intro s hs
      rw [List.foldl_cons]
      exact ih _ (worker_step_inv thread width height started s w hs)
  exact key sched _ (init_pass_inv thread width height)

/-- The claims that returned a tile are at most as many as the tiles. -/
theorem claims_length_le (thread : thread_args) (width height : Nat) (s : Pass)
    (h : Inv thread width height s) : s.claims.length ≤ (height / 20) * (width / 20) := by
  obtain ⟨-, hcount, hmem, -, -⟩ := h
  have hb : ∀ (x : Int × Int) (l : List (Int × Int)),
      @List.count _ instBEqOfDecidableEq x l = @List.count _ instBEqProd x l := by
    intro x l
    simp only [List.count]
    apply List.countP_congr
    intro y _
    rcases y with ⟨y1, y2⟩
    rcases x with ⟨x1, x2⟩
    have e1 : (@BEq.beq _ instBEqOfDecidableEq (y1, y2) (x1, x2)) = true ↔
        (y1, y2) = (x1, x2) := by
      show decide ((y1, y2) = (x1, x2)) = true ↔ _
      exact decide_eq_true_iff
    have e2 : (@BEq.beq _ instBEqProd (y1, y2) (x1, x2)) = true ↔ (y1, y2) = (x1, x2) := by
      show (y1 == x1 && y2 == x2) = true ↔ _
      simp
    exact e1.trans e2.symm
  have hnd : (s.claims.map Prod.snd).Nodup := by
    rw [List.nodup_iff_count_le_one]
    intro x
    rw [hb]
    by_cases hx : x ∈ s.claims.map Prod.snd
    · obtain ⟨c, hc, rfl⟩ := List.mem_map.mp hx
      obtain ⟨i, j, hi, hj, e⟩ := hmem c hc
      rw [e, hcount i j hi hj]
      split <;> omega
    · rw [List.count_eq_zero_of_not_mem hx]
      omega
  have hsub : (s.claims.map Prod.snd).toFinset ⊆
      (Finset.range (height / 20) ×ˢ Finset.range (width / 20)).image
        (fun p : Nat × Nat => ((p.2 : Int) * 20, (p.1 : Int) * 20)) := by
    intro x hx
    rw [List.mem_toFinset] at hx
    obtain ⟨c, hc, rfl⟩ := List.mem_map.mp hx
    obtain ⟨i, j, hi, hj, e⟩ := hmem c hc
    rw [Finset.mem_image]
    exact ⟨(i, j), by simp [hi, hj], e.symm⟩
  calc s.claims.length = (s.claims.map Prod.snd).length := by rw [List.length_map]
    _ = (s.claims.map Prod.snd).toFinset.card := (List.toFinset_card_of_nodup hnd).symm
    _ ≤ ((Finset.range (height / 20) ×ˢ Finset.range (width / 20)).image
          (fun p : Nat × Nat => ((p.2 : Int) * 20, (p.1 : Int) * 20))).card :=
        Finset.card_le_card hsub
    _ ≤ (Finset.range (height / 20) ×ˢ Finset.range (width / 20)).card := Finset.card_image_le
    _ = (height / 20) * (width / 20) := by rw [Finset.card_product, Finset.card_range,
        Finset.card_range]

/-- One turn and worker `w`: a worker that has left stays out, and while `w`
is in its loop each of its own turns adds one to the claims it has made. -/
theorem worker_step_turns (thread : thread_args) (width height : Nat) (started : List Nat)
    (s : Pass) (v w : Nat) (hw : w ∈ started) (hg : Grid (width / 20) (height / 20) s.tasks) :
    (w ∈ s.exited → w ∈ (worker_step thread width height started s v).exited) ∧
    (w ∉ (worker_step thread width height started s v).exited →
      ((worker_step thread width height started s v).claims.filter (fun c => c.1 = w)).length =
        (s.claims.filter (fun c => c.1 = w)).length + (if v = w then 1 else 0)) := by
  rcases worker_step_cases thread width height started s v hg with
    ⟨hskip, e⟩ | ⟨-, -, e⟩ | ⟨i₀, j₀, -, -, -, -, -, e⟩
  · rw [e]
    refine ⟨fun h => h, fun hout => ?_⟩
    have hvw : v ≠ w := by
      rintro rfl
      exact hskip ⟨hw, hout⟩
    rw [if_neg hvw, Nat.add_zero]
  · rw [e]
    refine ⟨fun h => List.mem_cons_of_mem v h, fun hout => ?_⟩
    have hvw : v ≠ w := by
      rintro rfl
      exact hout (List.mem_cons_self v s.exited)
    rw [if_neg hvw, Nat.add_zero]
  · rw [e]
    refine ⟨fun h => h, fun _ => ?_⟩
    dsimp only
    rw [List.filter_append, List.length_append]
    by_cases hvw : v = w
    · simp [hvw]
    · simp [hvw]

/-- The turns of a whole schedule and worker `w`, from any pass that satisfies
the invariant. -/
theorem foldl_turns (thread : thread_args) (width height : Nat) (started : List Nat)
    (w : Nat) (hw : w ∈ started) (l : List Nat) :
    ∀ s : Pass, Inv thread width height s →
      Inv thread width height (l.foldl (worker_step thread width height started) s) ∧
      (w ∈ s.exited → w ∈ (l.foldl (worker_step thread width height started) s).exited) ∧
      (w ∉ (l.foldl (worker_step thread width height started) s).exited →
        ((l.foldl (worker_step thread width height started) s).claims.filter
            (fun c => c.1 = w)).length =
          (s.claims.filter (fun c => c.1 = w)).length + l.count w) := by
  induction l with
  | nil => intro s hs; exact ⟨hs, fun h => h, fun _ => rfl⟩
  | cons v l ih =>
    intro s hs
    rw [List.foldl_cons]
    obtain ⟨h1, h2⟩ := worker_step_turns thread width height started s v w hw hs.1
    obtain ⟨g0, g1, g2⟩ := ih _ (worker_step_inv thread width height started s v hs)
    refine ⟨g0, fun h => g1 (h1 h), fun hout => ?_⟩
    have hout1 : w ∉ (worker_step thread width height started s v).exited :=
      fun h => hout (g1 h)
    rw [g2 hout, h2 hout1, List.count_cons]
    by_cases hvw : v = w
    · simp [hvw]; omega
    · simp [hvw]

/-- Termination: a started worker that gets more turns than there are tiles
has left its loop, so after every schedule that gives each started worker
that many turns all `pthread_join` calls return. -/
theorem run_exits (thread : thread_args) (width height : Nat) (started sched : List Nat)
    (w : Nat) (hw : w ∈ started) (hturns : (height / 20) * (width / 20) < sched.count w) :
    w ∈ (run thread width height started sched).exited := by
  by_contra hout
  obtain ⟨hinv, -, h⟩ := foldl_turns thread width height started w hw sched
    (init_pass width height) (init_pass_inv thread width height)
  have hlen := claims_length_le thread width height _ hinv
  have hfil := h hout
  have hle := List.length_filter_le (fun c : Nat × Int × Int => decide (c.1 = w))
    (sched.foldl (worker_step thread width height started) (init_pass width height)).claims
  have h0 : ((init_pass width height).claims.filter (fun c => c.1 = w)).length = 0 := by
    simp [init_pass]
  rw [h0] at hfil
  omega

/-- Every schedule that gives each started worker more turns than there are
tiles ends with all workers out of their loops. -/
theorem run_joined_of_turns (thread : thread_args) (width height : Nat)
    (started sched : List Nat)
    (hturns : ∀ w, w ∈ started → (height / 20) * (width / 20) < sched.count w) :
    (run thread width height started sched).joined started :=
  fun w hw => run_exits thread width height started sched w hw (hturns w hw)

/-- When some worker was started and all have left, some worker has left. -/
theorem run_exited_nonempty (thread : thread_args) (width height : Nat)
    (started sched : List Nat) (hne : started ≠ [])
    (hj : (run thread width height started sched).joined started) :
    (run thread width height started sched).exited ≠ [] := by
  obtain ⟨w, hw⟩ := List.exists_mem_of_ne_nil started hne
  exact List.ne_nil_of_mem (hj w hw)

end Task

/-- C2: from the freshly initialised task table of a `W × H` surface (every
tile of the `(H/20) × (W/20)` grid with `done == 0`), after any sequence of
claims by any non-empty set of workers at whose end each worker has received
"no work", every tile has been returned by exactly one claim, every tile has
`done == 1`, and one further claim returns "no work" (`x_task`, `y_task` stay
`-1`) and leaves the table unchanged. -/
theorem task_queue_exhaustion (thread : Task.thread_args) (W H : Nat)
    (started sched : List Nat) (hne : started ≠ [])
    (hj : (Task.run thread W H started sched).joined started) :
    (∀ i j : Nat, i < H / 20 → j < W / 20 → (Task.init_tasks W H i j).done = 0) ∧
    (∀ i j : Nat, i < H / 20 → j < W / 20 →
      (((Task.run thread W H started sched).claims.map Prod.snd).count
          ((j : Int) * 20, (i : Int) * 20) = 1 ∧
        ((Task.run thread W H started sched).tasks i j).done = 1)) ∧
    (∀ c, c ∈ (Task.run thread W H started sched).claims →
      ∃ i j : Nat, i < H / 20 ∧ j < W / 20 ∧ c.2 = ((j : Int) * 20, (i : Int) * 20)) ∧
    Task.claim (W / 20) (H / 20) (Task.run thread W H started sched).tasks =
      ⟨(Task.run thread W H started sched).tasks, -1, -1⟩ := by
  obtain ⟨hg, hcount, hmem, hex, -⟩ := Task.run_inv thread W H started sched
  have hdone := hex (Task.run_exited_nonempty thread W H started sched hne hj)
  refine ⟨?_, ?_, hmem, ?_⟩
  · intro i j hi hj
    rw [Task.init_tasks_apply, if_pos ⟨hi, hj⟩]
  · intro i j hi hj
    refine ⟨?_, hdone i j hi hj⟩
    rw [hcount i j hi hj, if_pos (hdone i j hi hj)]
  · rcases Task.claim_cases (W / 20) (H / 20) _ hg with ⟨h1, -⟩ | ⟨i₀, j₀, h1, h2, h3, -⟩
    · exact h1
    · have := hdone i₀ j₀ h1 h2
      rw [h3] at this
      exact absurd this (by decide)

/-- Witness for C2: a `40 × 20` surface (two tiles) and two workers taking
turns `0, 1, 1, 0`: worker 0 claims tile `(0, 0)`, worker 1 claims tile
`(20, 0)`, then both receive "no work". -/
theorem task_queue_exhaustion_witness :
    (([0, 1] : List Nat) ≠ [] ∧
      (Task.run ⟨-3/2, 1/2, -1, 1, 500, 2⟩ 40 20 [0, 1] [0, 1, 1, 0]).joined [0, 1]) ∧
    (∀ i j : Nat, i < 20 / 20 → j < 40 / 20 →
      (((Task.run ⟨-3/2, 1/2, -1, 1, 500, 2⟩ 40 20 [0, 1] [0, 1, 1, 0]).claims.map
          Prod.snd).count ((j : Int) * 20, (i : Int) * 20) = 1 ∧
        ((Task.run ⟨-3/2, 1/2, -1, 1, 500, 2⟩ 40 20 [0, 1] [0, 1, 1, 0]).tasks i j).done = 1)) ∧
    Task.claim (40 / 20) (20 / 20) (Task.run ⟨-3/2, 1/2, -1, 1, 500, 2⟩ 40 20 [0, 1]
        [0, 1, 1, 0]).tasks =
      ⟨(Task.run ⟨-3/2, 1/2, -1, 1, 500, 2⟩ 40 20 [0, 1] [0, 1, 1, 0]).tasks, -1, -1⟩ := by
  have hne : ([0, 1] : List Nat) ≠ [] := by decide
  have hj : (Task.run ⟨-3/2, 1/2, -1, 1, 500, 2⟩ 40 20 [0, 1] [0, 1, 1, 0]).joined [0, 1] := by
    intro w hw
    simp only [List.mem_cons, List.mem_singleton, List.not_mem_nil, or_false] at hw
    rcases hw with rfl | rfl <;> decide
  have h := task_queue_exhaustion ⟨-3/2, 1/2, -1, 1, 500, 2⟩ 40 20 [0, 1] [0, 1, 1, 0] hne hj
  exact ⟨⟨hne, hj⟩, h.2.1, h.2.2.2⟩

/-! ### The final images -/

/-- When every write of a surface gives its pixel the colour `f` of that
pixel, a pixel that some write names ends with the colour `f`, whatever the
order of the writes. -/
theorem colour_at_of_mem (f : Int → Int → Colour) (i j : Int) :
    ∀ l : List Write, (∀ w, w ∈ l → w.colour = f w.i w.j) →
      (∃ w, w ∈ l ∧ w.i = i ∧ w.j = j) → colour_at i j l = some (f i j) := by
  intro l
  induction l with
  | nil => intro _ ⟨w, hw, _⟩; simp at hw
  | cons a l ih =>
    intro hf hex
    have hf1 : ∀ w, w ∈ l → w.colour = f w.i w.j :=
      fun w hw => hf w (List.mem_cons_of_mem a hw)
    by_cases hl : ∃ w, w ∈ l ∧ w.i = i ∧ w.j = j
    · rw [colour_at, ih hf1 hl]
    · have ha : a.i = i ∧ a.j = j := by
        obtain ⟨w, hw, hwij⟩ := hex
        rcases List.mem_cons.mp hw with e | m
        · rw [← e]; exact hwij
        · exact absurd ⟨w, m, hwij⟩ hl
      have hc := hf a (List.mem_cons_self a l)
      rw [colour_at]
      cases hcl : colour_at i j l with
      | none => simp only [ha, and_self, if_true, hc]
      | some c =>
        have hcf : ∀ l : List Write, (∀ w, w ∈ l → w.colour = f w.i w.j) →
            colour_at i j l = some c → c = f i j := by
          intro l
          induction l with
          | nil => intro _ h; simp [colour_at] at h
          | cons b l ihl =>
            intro hfl h
            rw [colour_at] at h
            cases hbl : colour_at i j l with
            | some d =>
              rw [hbl] at h
              simp only [Option.some.injEq] at h
              rw [h] at hbl
              exact ihl (fun w hw => hfl w (List.mem_cons_of_mem b hw)) hbl
            | none =>
              rw [hbl] at h
              by_cases hb : b.i = i ∧ b.j = j
              · simp only [hb, and_self, if_true, Option.some.injEq] at h
                rw [← h, hfl b (List.mem_cons_self b l), hb.1, hb.2]
              · simp [hb] at h
        simp only [hcf l hf1 hcl]

/-- A pixel that no write names stays untouched. -/
theorem colour_at_of_not_mem (i j : Int) :
    ∀ l : List Write, (¬ ∃ w, w ∈ l ∧ w.i = i ∧ w.j = j) → colour_at i j l = none := by
  intro l
  induction l with
  | nil => intro _; rfl
  | cons a l ih =>
    intro h
    have hl : ¬ ∃ w, w ∈ l ∧ w.i = i ∧ w.j = j :=
      fun ⟨w, hw, hwij⟩ => h ⟨w, List.mem_cons_of_mem a hw, hwij⟩
    have ha : ¬ (a.i = i ∧ a.j = j) := fun e => h ⟨a, List.mem_cons_self a l, e⟩
    rw [colour_at, ih hl]
    simp [ha]

/-- The writes of one static worker: the pixels of its band, each once. -/
theorem Thread.mem_compute_image (a : Thread.thread_args) (width height : Nat) (w : Write) :
    w ∈ Thread.compute_image a width height ↔
      ∃ i j : Nat, i < width ∧ a.start ≤ j ∧ j < a.end_ ∧
        w = Thread.pixel a width height (i : Int) (j : Int) := by
  simp only [Thread.compute_image, List.mem_flatMap, List.mem_range'_1, List.mem_map,
    List.mem_range]
  constructor
  · rintro ⟨j, ⟨h1, h2⟩, i, hi, rfl⟩
    exact ⟨i, j, hi, h1, by omega, rfl⟩
  · rintro ⟨i, j, hi, h1, h2, rfl⟩
    exact ⟨j, ⟨h1, by omega⟩, i, hi, rfl⟩

/-- The writes of one claimed tile: its `20 × 20` pixels, each once. -/
theorem Task.mem_tile_writes (thread : Task.thread_args) (width height : Nat)
    (x_task y_task : Int) (w : Write) :
    w ∈ Task.tile_writes thread width height x_task y_task ↔
      ∃ i j : Nat, i < 20 ∧ j < 20 ∧
        w = Task.pixel thread width height x_task y_task (i : Int) (j : Int) := by
  simp only [Task.tile_writes, List.mem_flatMap, List.mem_map, List.mem_range]
  constructor
  · rintro ⟨j, hj, i, hi, rfl⟩
    exact ⟨i, j, hi, hj, rfl⟩
  · rintro ⟨i, j, hi, hj, rfl⟩
    exact ⟨j, hj, i, hi, rfl⟩

/-- The final colours of a surface whose writes are exactly one colour `f` for
each pixel of a region `P`: they do not depend on the order of the writes. -/
theorem colour_at_region (f : Int → Int → Colour) (P : Int → Int → Prop)
    [∀ i j, Decidable (P i j)] (l : List Write)
    (hmem : ∀ w : Write, w ∈ l ↔ (P w.i w.j ∧ w.colour = f w.i w.j)) (i j : Int) :
    colour_at i j l = if P i j then some (f i j) else none := by
  by_cases hp : P i j
  · rw [if_pos hp]
    apply colour_at_of_mem f i j l (fun w hw => ((hmem w).mp hw).2)
    exact ⟨⟨i, j, f i j⟩, (hmem _).mpr ⟨hp, rfl⟩, rfl, rfl⟩
  · rw [if_neg hp]
    apply colour_at_of_not_mem
    rintro ⟨w, hw, hi, hj⟩
    have := ((hmem w).mp hw).1
    rw [hi, hj] at this
    exact hp this

/-- The writes of a pass of `fractalthread.c` with all `N` workers: one write
for each pixel of `[0, W) × [0, N*(H/N))`, with the colour of that pixel. -/
theorem Thread.mem_render (W H : Nat) (xmin xmax ymin ymax : ℚ) (maxiter : Int) (N : Nat)
    (w : Write) :
    w ∈ Thread.render ((List.range N).map
        (Thread.make_args H xmin xmax ymin ymax maxiter N)) W H ↔
      ((0 ≤ w.i ∧ w.i < (W : Int) ∧ 0 ≤ w.j ∧ w.j < ((N * (H / N) : Nat) : Int)) ∧
        w.colour = Thread.pixel_colour W H xmin xmax ymin ymax maxiter w.i w.j) := by
  simp only [Thread.render, List.mem_flatMap, List.mem_map, List.mem_range,
    Thread.mem_compute_image]
  constructor
  · rintro ⟨a, ⟨k, hk, rfl⟩, i, j, hi, h1, h2, rfl⟩
    have hle : (k + 1) * (H / N) ≤ N * (H / N) := Nat.mul_le_mul_right _ hk
    have hj : j < N * (H / N) := lt_of_lt_of_le h2 hle
    refine ⟨⟨?_, ?_, ?_, ?_⟩, rfl⟩
    · exact Int.natCast_nonneg i
    · exact Int.ofNat_lt.mpr hi
    · exact Int.natCast_nonneg j
    · exact Int.ofNat_lt.mpr hj
  · rintro ⟨⟨h1, h2, h3, h4⟩, hc⟩
    have hj : w.j.toNat < N * (H / N) := by
      have := Int.toNat_of_nonneg h3
      omega
    have hb := (band_iff H N w.j.toNat (w.j.toNat / (H / N)) hj).mpr rfl
    have hq : 0 < H / N := by
      rcases Nat.eq_zero_or_pos (H / N) with h | h
      · rw [h] at hj; simp at hj
      · exact h
    refine ⟨_, ⟨w.j.toNat / (H / N), (Nat.div_lt_iff_lt_mul hq).mpr hj, rfl⟩,
      w.i.toNat, w.j.toNat, ?_, hb.1, hb.2, ?_⟩
    · have := Int.toNat_of_nonneg h1
      omega
    · cases w with
      | mk wi wj wc =>
        simp only at h1 h3 hc
        simp only [Thread.pixel, Thread.make_args, Write.mk.injEq]
        rw [Int.toNat_of_nonneg h1, Int.toNat_of_nonneg h3]
        exact ⟨rfl, rfl, hc⟩

/-- The writes of a finished pass of `fractaltask.c`: one write for each pixel
of `[0, 20*(W/20)) × [0, 20*(H/20))`, with the colour of that pixel. -/
theorem Task.mem_surface (thread : Task.thread_args) (W H : Nat) (started sched : List Nat)
    (hne : started ≠ []) (hj : (Task.run thread W H started sched).joined started)
    (w : Write) :
    w ∈ (Task.run thread W H started sched).surface ↔
      ((0 ≤ w.i ∧ w.i < ((20 * (W / 20) : Nat) : Int) ∧
          0 ≤ w.j ∧ w.j < ((20 * (H / 20) : Nat) : Int)) ∧
        w.colour = Task.pixel_colour W H thread.xmin thread.xmax thread.ymin thread.ymax
          thread.maxiter w.i w.j) := by
  obtain ⟨-, hcount, hmem, hex, hsurf⟩ := Task.run_inv thread W H started sched
  have hdone := hex (Task.run_exited_nonempty thread W H started sched hne hj)
  rw [hsurf]
  simp only [List.mem_flatMap, Task.mem_tile_writes]
  constructor
  · rintro ⟨c, hc, a, b, ha, hb, rfl⟩
    obtain ⟨i₀, j₀, hi₀, hj₀, hc2⟩ := hmem c hc
    have h1 : c.2.1 = (j₀ : Int) * 20 := by rw [hc2]
    have h2 : c.2.2 = (i₀ : Int) * 20 := by rw [hc2]
    rw [h1, h2]
    refine ⟨⟨?_, ?_, ?_, ?_⟩, rfl⟩
    · show 0 ≤ (a : Int) + (j₀ : Int) * 20
      omega
    · show (a : Int) + (j₀ : Int) * 20 < ((20 * (W / 20) : Nat) : Int)
      omega
    · show 0 ≤ (b : Int) + (i₀ : Int) * 20
      omega
    · show (b : Int) + (i₀ : Int) * 20 < ((20 * (H / 20) : Nat) : Int)
      omega
  · rintro ⟨⟨h1, h2, h3, h4⟩, hc⟩
    have e1 := Int.toNat_of_nonneg h1
    have e3 := Int.toNat_of_nonneg h3
    have hi₀ : w.j.toNat / 20 < H / 20 := by omega
    have hj₀ : w.i.toNat / 20 < W / 20 := by omega
    have hcnt := hcount (w.j.toNat / 20) (w.i.toNat / 20) hi₀ hj₀
    rw [if_pos (hdone _ _ hi₀ hj₀)] at hcnt
    have hin : (((w.i.toNat / 20 : Nat) : Int) * 20, ((w.j.toNat / 20 : Nat) : Int) * 20) ∈
        (Task.run thread W H started sched).claims.map Prod.snd :=
      List.one_le_count_iff.mp (le_of_eq hcnt.symm)
    obtain ⟨c, hc1, hc2⟩ := List.mem_map.mp hin
    refine ⟨c, hc1, w.i.toNat % 20, w.j.toNat % 20, Nat.mod_lt _ (by decide),
      Nat.mod_lt _ (by decide), ?_⟩
    rw [hc2]
    cases w with
    | mk wi wj wc =>
      simp only at h1 h3 hc e1 e3
      have ei : ((wi.toNat % 20 : Nat) : Int) + ((wi.toNat / 20 : Nat) : Int) * 20 = wi := by
        omega
      have ej : ((wj.toNat % 20 : Nat) : Int) + ((wj.toNat / 20 : Nat) : Int) * 20 = wj := by
        omega
      simp only [Task.pixel, Write.mk.injEq]
      rw [ei, ej]
      exact ⟨rfl, rfl, hc⟩

/-- The final image of `fractalthread.c`: the pixels of
`[0, W) × [0, N*(H/N))` have the shade times `(5, 10, 15)`, the others are
untouched. -/
theorem Thread.static_image_eq (W H : Nat) (xmin xmax ymin ymax : ℚ) (maxiter : Int) (N : Nat)
    (i j : Int) :
    Thread.image W H xmin xmax ymin ymax maxiter N i j =
      if 0 ≤ i ∧ i < (W : Int) ∧ 0 ≤ j ∧ j < ((N * (H / N) : Nat) : Int) then
        some (Thread.pixel_colour W H xmin xmax ymin ymax maxiter i j)
      else none := by
  rw [Thread.image, Thread.create_threads_success]
  exact colour_at_region _
    (fun i j => 0 ≤ i ∧ i < (W : Int) ∧ 0 ≤ j ∧ j < ((N * (H / N) : Nat) : Int)) _
    (Thread.mem_render W H xmin xmax ymin ymax maxiter N) i j

/-- The final image of `fractaltask.c` after any schedule at whose end the
`N ≥ 1` workers have all left their loops: the pixels of
`[0, 20*(W/20)) × [0, 20*(H/20))` have the shade times `(10, 20, 50)`, the
others are untouched. -/
theorem Task.dynamic_image_eq (sched : List Nat) (W H : Nat) (xmin xmax ymin ymax : ℚ)
    (maxiter : Int) (N : Nat) (hN : 1 ≤ N)
    (hj : (Task.run ⟨xmin, xmax, ymin, ymax, maxiter, N⟩ W H (List.range N) sched).joined
      (List.range N))
    (i j : Int) :
    Task.image sched W H xmin xmax ymin ymax maxiter N i j =
      if 0 ≤ i ∧ i < ((20 * (W / 20) : Nat) : Int) ∧
          0 ≤ j ∧ j < ((20 * (H / 20) : Nat) : Int) then
        some (Task.pixel_colour W H xmin xmax ymin ymax maxiter i j)
      else none := by
  have hne : List.range N ≠ [] := by
    intro h
    have := congrArg List.length h
    simp at this
    omega
  rw [Task.image, Task.create_threads, spawn_loop_success, join_loop_success]
  exact colour_at_region _
    (fun i j => 0 ≤ i ∧ i < ((20 * (W / 20) : Nat) : Int) ∧
      0 ≤ j ∧ j < ((20 * (H / 20) : Nat) : Int)) _
    (Task.mem_surface ⟨xmin, xmax, ymin, ymax, maxiter, N⟩ W H (List.range N) sched hne hj) i j

/-- The value of `compute_point` at the corner `-1.5 - 1i` of the initial
viewport with budget 500 is 3: the orbit is `0, -1.5-i, -0.25+2i,
-5.4375-2i`. -/
theorem compute_point_corner : compute_point (-3/2) (-1) 500 = 3 := by
  unfold compute_point
  rw [show (500 : Int).toNat = 497 + 1 + 1 + 1 from rfl]
  rw [compute_loop_step _ _ _ _ _ (by norm_num [normSq]) (by norm_num)]
  rw [compute_loop_step _ _ _ _ _ (by norm_num [normSq, cadd, cpow2]) (by norm_num)]
  rw [compute_loop_step _ _ _ _ _ (by norm_num [normSq, cadd, cpow2]) (by norm_num)]
  rw [compute_loop_escape _ _ _ _ _ (by norm_num [normSq, cadd, cpow2])]
  norm_num

/-- The shade of pixel `(0, 0)` of a surface showing the initial viewport
with budget 500 is `255 * 3 / 500 = 1`. -/
theorem pixel_shade_corner (W H : Nat) : pixel_shade W H (-3/2) (1/2) (-1) 1 500 0 0 = 1 := by
  have hx : scale (-3/2) (1/2) W 0 = -3/2 := by simp [scale]
  have hy : scale (-1) 1 H 0 = -1 := by simp [scale]
  rw [pixel_shade, hx, hy, compute_point_corner]
  decide

/-- On the `640 × 480` surface of `main` (768 tiles) one worker that takes 769
turns has claimed every tile and left its loop. -/
theorem joined_startup :
    (Task.run ⟨-3/2, 1/2, -1, 1, 500, 1⟩ 640 480 (List.range 1)
      (List.replicate 769 0)).joined (List.range 1) := by
  intro w hw
  apply Task.run_exits _ _ _ _ _ _ hw
  simp only [List.range_succ, List.range_zero, List.nil_append, List.mem_singleton] at hw
  subst hw
  rw [List.count_replicate_self]
  decide

/-- C3 (as stated, refuted): for the first pass of `main` (the initial
viewport, `maxiter = 500`, the `640 × 480` surface, one worker) the final
images of the two renderers differ: at pixel `(0, 0)` `fractalthread.c` draws
`(5, 10, 15)` and `fractaltask.c` draws `(10, 20, 50)`. -/
theorem images_differ :
    Thread.image 640 480 (-3/2) (1/2) (-1) 1 500 1 ≠
      Task.image (List.replicate 769 0) 640 480 (-3/2) (1/2) (-1) 1 500 1 := by
  intro h
  have h00 := congrFun (congrFun h 0) 0
  rw [Thread.static_image_eq, Task.dynamic_image_eq (List.replicate 769 0) 640 480
    (-3/2) (1/2) (-1) 1 500 1 (le_refl 1) joined_startup] at h00
  rw [if_pos (by decide), if_pos (by decide)] at h00
  simp only [Thread.pixel_colour, Task.pixel_colour, pixel_shade_corner, Option.some.injEq,
    Colour.mk.injEq] at h00
  omega

/-- Where the two final images agree: at a pixel outside both drawn regions,
and at a pixel inside both whose shade is 0. -/
theorem images_agree_iff (xmin xmax ymin ymax : ℚ) (maxiter : Int) (W H N : Nat)
    (sched : List Nat) (hN : 1 ≤ N)
    (hj : (Task.run ⟨xmin, xmax, ymin, ymax, maxiter, N⟩ W H (List.range N) sched).joined
      (List.range N))
    (i j : Int) :
    Thread.image W H xmin xmax ymin ymax maxiter N i j =
        Task.image sched W H xmin xmax ymin ymax maxiter N i j ↔
      (¬ (0 ≤ i ∧ i < (W : Int) ∧ 0 ≤ j ∧ j < ((N * (H / N) : Nat) : Int)) ∧
        ¬ (0 ≤ i ∧ i < ((20 * (W / 20) : Nat) : Int) ∧
          0 ≤ j ∧ j < ((20 * (H / 20) : Nat) : Int))) ∨
      ((0 ≤ i ∧ i < (W : Int) ∧ 0 ≤ j ∧ j < ((N * (H / N) : Nat) : Int)) ∧
        (0 ≤ i ∧ i < ((20 * (W / 20) : Nat) : Int) ∧
          0 ≤ j ∧ j < ((20 * (H / 20) : Nat) : Int)) ∧
        pixel_shade W H xmin xmax ymin ymax maxiter i j = 0) := by
  rw [Thread.static_image_eq, Task.dynamic_image_eq sched W H xmin xmax ymin ymax maxiter N hN hj]
  by_cases hA : 0 ≤ i ∧ i < (W : Int) ∧ 0 ≤ j ∧ j < ((N * (H / N) : Nat) : Int)
  · by_cases hB : 0 ≤ i ∧ i < ((20 * (W / 20) : Nat) : Int) ∧
        0 ≤ j ∧ j < ((20 * (H / 20) : Nat) : Int)
    · rw [if_pos hA, if_pos hB]
      simp only [Thread.pixel_colour, Task.pixel_colour, Option.some.injEq, Colour.mk.injEq]
      constructor
      · rintro ⟨h, -, -⟩
        exact Or.inr ⟨hA, hB, by omega⟩
      · rintro (⟨h, -⟩ | ⟨-, -, h0⟩)
        · exact absurd hA h
        · rw [h0]
          simp
    · rw [if_pos hA, if_neg hB]
      constructor
      · intro h; simp at h
      · rintro (⟨h, -⟩ | ⟨-, h, -⟩)
        · exact absurd hA h
        · exact absurd h hB
  · by_cases hB : 0 ≤ i ∧ i < ((20 * (W / 20) : Nat) : Int) ∧
        0 ≤ j ∧ j < ((20 * (H / 20) : Nat) : Int)
    · rw [if_neg hA, if_pos hB]
      constructor
      · intro h; simp at h
      · rintro (⟨-, h⟩ | ⟨h, -, -⟩)
        · exact absurd hB h
        · exact absurd h hA
    · rw [if_neg hA, if_neg hB]
      exact ⟨fun _ => Or.inl ⟨hA, hB⟩, fun _ => rfl⟩

/-- C3 (amended): for every viewport, `maxiter > 0`, surface `W × H`, worker
count `N ≥ 1` and every schedule of the dynamic workers at whose end all have
left their loops, both renderers derive the colour of a pixel from the same
shade `s = 255 * compute_point(..) / maxiter` of that pixel: the final image
of the static renderer has `(5s, 10s, 15s)` at exactly the pixels of
`[0, W) × [0, N*(H/N))`, that of the dynamic renderer has `(10s, 20s, 50s)` at
exactly the pixels of `[0, 20*(W/20)) × [0, 20*(H/20))`, and every other pixel
is untouched. The two images agree at a pixel exactly when it lies in neither
region, or lies in both and has `s = 0`; so they need not be identical. -/
theorem renderers_compared (xmin xmax ymin ymax : ℚ) (maxiter : Int) (W H N : Nat)
    (sched : List Nat) (_hmax : 0 < maxiter) (hN : 1 ≤ N)
    (hj : (Task.run ⟨xmin, xmax, ymin, ymax, maxiter, N⟩ W H (List.range N) sched).joined
      (List.range N))
    (i j : Int) :
    Thread.image W H xmin xmax ymin ymax maxiter N i j =
      (if 0 ≤ i ∧ i < (W : Int) ∧ 0 ≤ j ∧ j < ((N * (H / N) : Nat) : Int) then
        some ⟨pixel_shade W H xmin xmax ymin ymax maxiter i j * 5,
              pixel_shade W H xmin xmax ymin ymax maxiter i j * 10,
              pixel_shade W H xmin xmax ymin ymax maxiter i j * 15⟩
      else none) ∧
    Task.image sched W H xmin xmax ymin ymax maxiter N i j =
      (if 0 ≤ i ∧ i < ((20 * (W / 20) : Nat) : Int) ∧
          0 ≤ j ∧ j < ((20 * (H / 20) : Nat) : Int) then
        some ⟨pixel_shade W H xmin xmax ymin ymax maxiter i j * 10,
              pixel_shade W H xmin xmax ymin ymax maxiter i j * 20,
              pixel_shade W H xmin xmax ymin ymax maxiter i j * 50⟩
      else none) ∧
    (Thread.image W H xmin xmax ymin ymax maxiter N i j =
        Task.image sched W H xmin xmax ymin ymax maxiter N i j ↔
      (¬ (0 ≤ i ∧ i < (W : Int) ∧ 0 ≤ j ∧ j < ((N * (H / N) : Nat) : Int)) ∧
        ¬ (0 ≤ i ∧ i < ((20 * (W / 20) : Nat) : Int) ∧
          0 ≤ j ∧ j < ((20 * (H / 20) : Nat) : Int))) ∨
      ((0 ≤ i ∧ i < (W : Int) ∧ 0 ≤ j ∧ j < ((N * (H / N) : Nat) : Int)) ∧
        (0 ≤ i ∧ i < ((20 * (W / 20) : Nat) : Int) ∧
          0 ≤ j ∧ j < ((20 * (H / 20) : Nat) : Int)) ∧
        pixel_shade W H xmin xmax ymin ymax maxiter i j = 0)) :=
  ⟨Thread.static_image_eq W H xmin xmax ymin ymax maxiter N i j,
    Task.dynamic_image_eq sched W H xmin xmax ymin ymax maxiter N hN hj i j,
    images_agree_iff xmin xmax ymin ymax maxiter W H N sched hN hj i j⟩

/-- Witness for C3 (amended): the initial viewport on a `20 × 20` surface,
one worker taking two turns, pixel `(0, 0)`, whose shade is 1: the static
image has `(5, 10, 15)` there and the dynamic image `(10, 20, 50)`. -/
theorem renderers_compared_witness :
    ((0 : Int) < 500 ∧ 1 ≤ 1 ∧
      (Task.run ⟨-3/2, 1/2, -1, 1, 500, 1⟩ 20 20 (List.range 1) [0, 0]).joined
        (List.range 1)) ∧
    Thread.image 20 20 (-3/2) (1/2) (-1) 1 500 1 0 0 =
      (if (0 : Int) ≤ 0 ∧ (0 : Int) < (20 : Nat) ∧ (0 : Int) ≤ 0 ∧
          (0 : Int) < ((1 * (20 / 1) : Nat) : Int) then
        some ⟨pixel_shade 20 20 (-3/2) (1/2) (-1) 1 500 0 0 * 5,
              pixel_shade 20 20 (-3/2) (1/2) (-1) 1 500 0 0 * 10,
              pixel_shade 20 20 (-3/2) (1/2) (-1) 1 500 0 0 * 15⟩
      else none) ∧
    Task.image [0, 0] 20 20 (-3/2) (1/2) (-1) 1 500 1 0 0 =
      (if (0 : Int) ≤ 0 ∧ (0 : Int) < ((20 * (20 / 20) : Nat) : Int) ∧ (0 : Int) ≤ 0 ∧
          (0 : Int) < ((20 * (20 / 20) : Nat) : Int) then
        some ⟨pixel_shade 20 20 (-3/2) (1/2) (-1) 1 500 0 0 * 10,
              pixel_shade 20 20 (-3/2) (1/2) (-1) 1 500 0 0 * 20,
              pixel_shade 20 20 (-3/2) (1/2) (-1) 1 500 0 0 * 50⟩
      else none) ∧
    (Thread.image 20 20 (-3/2) (1/2) (-1) 1 500 1 0 0 =
        Task.image [0, 0] 20 20 (-3/2) (1/2) (-1) 1 500 1 0 0 ↔
      (¬ ((0 : Int) ≤ 0 ∧ (0 : Int) < (20 : Nat) ∧ (0 : Int) ≤ 0 ∧
          (0 : Int) < ((1 * (20 / 1) : Nat) : Int)) ∧
        ¬ ((0 : Int) ≤ 0 ∧ (0 : Int) < ((20 * (20 / 20) : Nat) : Int) ∧ (0 : Int) ≤ 0 ∧
          (0 : Int) < ((20 * (20 / 20) : Nat) : Int))) ∨
      (((0 : Int) ≤ 0 ∧ (0 : Int) < (20 : Nat) ∧ (0 : Int) ≤ 0 ∧
          (0 : Int) < ((1 * (20 / 1) : Nat) : Int)) ∧
        ((0 : Int) ≤ 0 ∧ (0 : Int) < ((20 * (20 / 20) : Nat) : Int) ∧ (0 : Int) ≤ 0 ∧
          (0 : Int) < ((20 * (20 / 20) : Nat) : Int)) ∧
        pixel_shade 20 20 (-3/2) (1/2) (-1) 1 500 0 0 = 0)) := by
  have hj : (Task.run ⟨-3/2, 1/2, -1, 1, 500, 1⟩ 20 20 (List.range 1) [0, 0]).joined
      (List.range 1) := by
    intro w hw
    simp only [List.range_succ, List.range_zero, List.nil_append, List.mem_singleton] at hw
    subst hw
    decide
  exact ⟨⟨by decide, le_refl 1, hj⟩,
    renderers_compared (-3/2) (1/2) (-1) 1 500 20 20 1 [0, 0] (by decide) (le_refl 1) hj 0 0⟩

/-! ### A pass with zero workers -/

/-- Among the indices `0 .. n-1` shifted by `x`, the value `px` occurs once if
`x ≤ px < x + n` and not at all otherwise. -/
theorem countP_range_shift (x px : Int) (n : Nat) :
    (List.range n).countP (fun i : Nat => decide ((i : Int) + x = px)) =
      if x ≤ px ∧ px < x + (n : Int) then 1 else 0 := by
  induction n with
  | zero =>
    rw [if_neg (by push_cast; omega)]
    rfl
  | succ n ih =>
    rw [List.range_succ, List.countP_append, ih, List.countP_singleton]
    clear ih
    simp only [decide_eq_true_eq]
    push_cast
    split_ifs <;> omega

namespace Task

/-- The writes of the rows `0 .. n-1` of a claimed tile name pixel `(px, py)`
once if the pixel lies in these rows of the tile and never otherwise. -/
theorem countP_tile_rows (thread : thread_args) (width height : Nat) (x_task y_task : Int)
    (px py : Int) (n : Nat) :
    ((List.range n).flatMap fun (j : Nat) =>
        (List.range 20).map fun (i : Nat) =>
          pixel thread width height x_task y_task (i : Int) (j : Int)).countP
        (fun w => decide (w.i = px ∧ w.j = py)) =
      if (x_task ≤ px ∧ px < x_task + 20) ∧ (y_task ≤ py ∧ py < y_task + (n : Int)) then 1
      else 0 := by
  induction n with
  | zero =>
    rw [if_neg (by push_cast; omega)]
    rfl
  | succ n ih =>
    rw [List.range_succ, List.flatMap_append, List.countP_append, ih]
    have hrow : ((List.flatMap [n] fun (j : Nat) =>
        (List.range 20).map fun (i : Nat) =>
          pixel thread width height x_task y_task (i : Int) (j : Int)).countP
        (fun w => decide (w.i = px ∧ w.j = py))) =
        if (x_task ≤ px ∧ px < x_task + 20) ∧ (n : Int) + y_task = py then 1 else 0 := by
      simp only [List.flatMap_cons, List.flatMap_nil, List.append_nil, List.countP_map]
      by_cases hy : (n : Int) + y_task = py
      · have hfun : ((fun w : Write => decide (w.i = px ∧ w.j = py)) ∘
            fun (i : Nat) => pixel thread width height x_task y_task (i : Int) (n : Int)) =
            fun (i : Nat) => decide ((i : Int) + x_task = px) := by
          funext i
          simp [pixel, hy]
        rw [hfun, countP_range_shift]
        simp [hy]
      · have hfun : ((fun w : Write => decide (w.i = px ∧ w.j = py)) ∘
            fun (i : Nat) => pixel thread width height x_task y_task (i : Int) (n : Int)) =
            fun (_ : Nat) => false := by
          funext i
          simp [pixel, hy]
        rw [hfun]
        simp [hy]
    rw [hrow]
    clear ih hrow
    push_cast
    split_ifs <;> omega

/-- The writes of a claimed tile name each pixel of the tile once and no other
pixel. -/
theorem countP_tile_writes (thread : thread_args) (width height : Nat) (x_task y_task : Int)
    (px py : Int) :
    (tile_writes thread width height x_task y_task).countP
        (fun w => decide (w.i = px ∧ w.j = py)) =
      if (x_task ≤ px ∧ px < x_task + 20) ∧ (y_task ≤ py ∧ py < y_task + 20) then 1 else 0 := by
  rw [tile_writes, countP_tile_rows]
  rfl


/-- The writes of a list of claimed grid tiles name pixel `(px, py)` as often
as the list holds the tile of that pixel. -/
theorem countP_claims (thread : thread_args) (width height : Nat) (px py : Int)
    (hpx : 0 ≤ px) (hpy : 0 ≤ py) (cl : List (Nat × Int × Int))
    (hcl : ∀ c, c ∈ cl → ∃ i j : Nat, c.2 = ((j : Int) * 20, (i : Int) * 20)) :
    (cl.flatMap fun c => tile_writes thread width height c.2.1 c.2.2).countP
        (fun w => decide (w.i = px ∧ w.j = py)) =
      (cl.map Prod.snd).count
        (((px.toNat / 20 : Nat) : Int) * 20, ((py.toNat / 20 : Nat) : Int) * 20) := by
  induction cl with
  | nil => rfl
  | cons c cl ih =>
    have ih1 := ih (fun d hd => hcl d (List.mem_cons_of_mem c hd))
    obtain ⟨i, j, hc⟩ := hcl c (List.mem_cons_self c cl)
    rw [List.flatMap_cons, List.countP_append, ih1, List.map_cons, List.count_cons,
      countP_tile_writes, hc]
    have ex := Int.toNat_of_nonneg hpx
    have ey := Int.toNat_of_nonneg hpy
    have hbeq : ((((j : Int) * 20, (i : Int) * 20) ==
        ((((px.toNat / 20 : Nat) : Int) * 20, ((py.toNat / 20 : Nat) : Int) * 20))) = true) ↔
        ((j : Int) * 20 = ((px.toNat / 20 : Nat) : Int) * 20 ∧
          (i : Int) * 20 = ((py.toNat / 20 : Nat) : Int) * 20) := by
      show ((j : Int) * 20 == ((px.toNat / 20 : Nat) : Int) * 20 &&
        (i : Int) * 20 == ((py.toNat / 20 : Nat) : Int) * 20) = true ↔ _
      simp
    rw [Nat.add_comm]
    congr 1
    by_cases h : (j : Int) * 20 = ((px.toNat / 20 : Nat) : Int) * 20 ∧
        (i : Int) * 20 = ((py.toNat / 20 : Nat) : Int) * 20
    · rw [if_pos (hbeq.mpr h), if_pos]
      dsimp only
      omega
    · rw [if_neg (fun hb => h (hbeq.mp hb)), if_neg]
      dsimp only
      omega

/-- After a finished pass every pixel of `[0, 20*(W/20)) × [0, 20*(H/20))` has
been written exactly once and no other pixel has been written. -/
theorem countP_surface (thread : thread_args) (W H : Nat) (started sched : List Nat)
    (hne : started ≠ []) (hj : (run thread W H started sched).joined started) (px py : Int) :
    (run thread W H started sched).surface.countP (fun w => decide (w.i = px ∧ w.j = py)) =
      if 0 ≤ px ∧ px < ((20 * (W / 20) : Nat) : Int) ∧
          0 ≤ py ∧ py < ((20 * (H / 20) : Nat) : Int) then 1 else 0 := by
  obtain ⟨-, hcount, hmem, hex, hsurf⟩ := run_inv thread W H started sched
  have hdone := hex (run_exited_nonempty thread W H started sched hne hj)
  by_cases hpos : 0 ≤ px ∧ 0 ≤ py
  · obtain ⟨hpx, hpy⟩ := hpos
    have ex := Int.toNat_of_nonneg hpx
    have ey := Int.toNat_of_nonneg hpy
    rw [hsurf, countP_claims thread W H px py hpx hpy _
      (fun c hc => by
        obtain ⟨i, j, -, -, e⟩ := hmem c hc
        exact ⟨i, j, e⟩)]
    by_cases hin : px.toNat / 20 < W / 20 ∧ py.toNat / 20 < H / 20
    · rw [hcount _ _ hin.2 hin.1, if_pos (hdone _ _ hin.2 hin.1), if_pos]
      omega
    · rw [if_neg (by omega)]
      apply List.count_eq_zero_of_not_mem
      intro hmemT
      obtain ⟨c, hc, e⟩ := List.mem_map.mp hmemT
      obtain ⟨i, j, hi, hj', e'⟩ := hmem c hc
      rw [e', Prod.mk.injEq] at e
      omega
  · rw [if_neg (by omega)]
    rw [List.countP_eq_zero]
    intro w hw
    have hw' := (mem_surface thread W H started sched hne hj w).mp hw
    simp only [decide_eq_true_eq]
    intro hh
    rw [hh.1, hh.2] at hw'
    omega

end Task

/-- C13: under the dynamic task queue, for every viewport, `maxiter > 0`,
surface `W × H`, worker count `N ≥ 1` and every order `sched` in which the
workers take their turns until all have left their loops: each pixel of
`[0, 20*(W/20)) × [0, 20*(H/20))` is written exactly once and no other pixel
is written; every write gives its pixel `(px, py)` the colour derived from
`compute_point(xmin + px*(xmax-xmin)/W, ymin + py*(ymax-ymin)/H, maxiter)`;
so the final image is this function of the pixel, and it is the same for any
other such order `sched'`. -/
theorem dynamic_image_order_independent (xmin xmax ymin ymax : ℚ) (maxiter : Int)
    (W H N : Nat) (sched sched' : List Nat) (_hmax : 0 < maxiter) (hN : 1 ≤ N)
    (hj : (Task.run ⟨xmin, xmax, ymin, ymax, maxiter, N⟩ W H (List.range N) sched).joined
      (List.range N))
    (hj' : (Task.run ⟨xmin, xmax, ymin, ymax, maxiter, N⟩ W H (List.range N) sched').joined
      (List.range N)) :
    (∀ px py : Int,
      (Task.run ⟨xmin, xmax, ymin, ymax, maxiter, N⟩ W H (List.range N) sched).surface.countP
          (fun w => decide (w.i = px ∧ w.j = py)) =
        if 0 ≤ px ∧ px < ((20 * (W / 20) : Nat) : Int) ∧
            0 ≤ py ∧ py < ((20 * (H / 20) : Nat) : Int) then 1 else 0) ∧
    (∀ w : Write,
      w ∈ (Task.run ⟨xmin, xmax, ymin, ymax, maxiter, N⟩ W H (List.range N) sched).surface →
      w.colour =
        ⟨shade (compute_point (xmin + (w.i : ℚ) * (xmax - xmin) / (W : ℚ))
            (ymin + (w.j : ℚ) * (ymax - ymin) / (H : ℚ)) maxiter) maxiter * 10,
         shade (compute_point (xmin + (w.i : ℚ) * (xmax - xmin) / (W : ℚ))
            (ymin + (w.j : ℚ) * (ymax - ymin) / (H : ℚ)) maxiter) maxiter * 20,
         shade (compute_point (xmin + (w.i : ℚ) * (xmax - xmin) / (W : ℚ))
            (ymin + (w.j : ℚ) * (ymax - ymin) / (H : ℚ)) maxiter) maxiter * 50⟩) ∧
    (∀ px py : Int,
      Task.image sched W H xmin xmax ymin ymax maxiter N px py =
        if 0 ≤ px ∧ px < ((20 * (W / 20) : Nat) : Int) ∧
            0 ≤ py ∧ py < ((20 * (H / 20) : Nat) : Int) then
          some ⟨shade (compute_point (xmin + (px : ℚ) * (xmax - xmin) / (W : ℚ))
                  (ymin + (py : ℚ) * (ymax - ymin) / (H : ℚ)) maxiter) maxiter * 10,
                shade (compute_point (xmin + (px : ℚ) * (xmax - xmin) / (W : ℚ))
                  (ymin + (py : ℚ) * (ymax - ymin) / (H : ℚ)) maxiter) maxiter * 20,
                shade (compute_point (xmin + (px : ℚ) * (xmax - xmin) / (W : ℚ))
                  (ymin + (py : ℚ) * (ymax - ymin) / (H : ℚ)) maxiter) maxiter * 50⟩
        else none) ∧
    Task.image sched W H xmin xmax ymin ymax maxiter N =
      Task.image sched' W H xmin xmax ymin ymax maxiter N := by
  have hne : List.range N ≠ [] := by
    intro h
    have := congrArg List.length h
    simp at this
    omega
  refine ⟨?_, ?_, ?_, ?_⟩
  · exact Task.countP_surface _ W H _ sched hne hj
  · intro w hw
    exact ((Task.mem_surface _ W H _ sched hne hj w).mp hw).2
  · intro px py
    exact Task.dynamic_image_eq sched W H xmin xmax ymin ymax maxiter N hN hj px py
  · funext px py
    rw [Task.dynamic_image_eq sched W H xmin xmax ymin ymax maxiter N hN hj,
      Task.dynamic_image_eq sched' W H xmin xmax ymin ymax maxiter N hN hj']

/-- Witness for C13: a `40 × 20` surface (two tiles), two workers, the orders
`0, 1, 1, 0` and `1, 0, 0, 1`: the images agree although each tile is drawn by
a different worker. -/
theorem dynamic_image_order_independent_witness :
    ((0 : Int) < 500 ∧ 1 ≤ 2 ∧
      (Task.run ⟨-3/2, 1/2, -1, 1, 500, 2⟩ 40 20 (List.range 2) [0, 1, 1, 0]).joined
        (List.range 2) ∧
      (Task.run ⟨-3/2, 1/2, -1, 1, 500, 2⟩ 40 20 (List.range 2) [1, 0, 0, 1]).joined
        (List.range 2)) ∧
    (Task.run ⟨-3/2, 1/2, -1, 1, 500, 2⟩ 40 20 (List.range 2) [0, 1, 1, 0]).claims =
      [(0, 0, 0), (1, 20, 0)] ∧
    (Task.run ⟨-3/2, 1/2, -1, 1, 500, 2⟩ 40 20 (List.range 2) [1, 0, 0, 1]).claims =
      [(1, 0, 0), (0, 20, 0)] ∧
    Task.image [0, 1, 1, 0] 40 20 (-3/2) (1/2) (-1) 1 500 2 =
      Task.image [1, 0, 0, 1] 40 20 (-3/2) (1/2) (-1) 1 500 2 := by
  have hj : (Task.run ⟨-3/2, 1/2, -1, 1, 500, 2⟩ 40 20 (List.range 2) [0, 1, 1, 0]).joined
      (List.range 2) := by
    intro w hw
    simp only [List.range_succ, List.range_zero, List.nil_append, List.cons_append,
      List.mem_cons, List.mem_singleton, List.not_mem_nil, or_false] at hw
    rcases hw with rfl | rfl <;> decide
  have hj' : (Task.run ⟨-3/2, 1/2, -1, 1, 500, 2⟩ 40 20 (List.range 2) [1, 0, 0, 1]).joined
      (List.range 2) := by
    intro w hw
    simp only [List.range_succ, List.range_zero, List.nil_append, List.cons_append,
      List.mem_cons, List.mem_singleton, List.not_mem_nil, or_false] at hw
    rcases hw with rfl | rfl <;> decide
  exact ⟨⟨by decide, by decide, hj, hj'⟩, by decide, by decide,
    (dynamic_image_order_independent (-3/2) (1/2) (-1) 1 500 40 20 2 [0, 1, 1, 0] [1, 0, 0, 1]
      (by decide) (by decide) hj hj').2.2.2⟩

/-! ### The lock discipline -/

/-- A worker that takes the free mutex keeps the lock discipline. -/
theorem LockInv.acquire {P : Type} {holds : P → Bool} {lock : Option Nat} {pc : Nat → P}
    (h : LockInv holds lock pc) (hfree : lock = none) (w : Nat) (p : P) :
    LockInv holds (some w) (set_pc pc w p) := by
  intro v hv
  by_cases hvw : v = w
  · rw [hvw]
  · rw [set_pc, if_neg hvw] at hv
    have := h v hv
    rw [hfree] at this
    exact absurd this (by simp)

/-- A worker that gives the mutex back, and is then outside its critical
section, keeps the lock discipline. -/
theorem LockInv.release {P : Type} {holds : P → Bool} {lock : Option Nat} {pc : Nat → P}
    (h : LockInv holds lock pc) (w : Nat) (hw : holds (pc w) = true) (p : P)
    (hp : holds p = false) : LockInv holds none (set_pc pc w p) := by
  intro v hv
  by_cases hvw : v = w
  · rw [set_pc, if_pos hvw, hp] at hv
    exact absurd hv (by simp)
  · rw [set_pc, if_neg hvw] at hv
    have h1 := h v hv
    have h2 := h w hw
    rw [h1] at h2
    exact absurd (Option.some.inj h2) hvw

/-- A statement that leaves the mutex alone and does not take the worker into
a critical section keeps the lock discipline. -/
theorem LockInv.internal {P : Type} {holds : P → Bool} {lock : Option Nat} {pc : Nat → P}
    (h : LockInv holds lock pc) (w : Nat) (p : P)
    (hp : holds p = true → holds (pc w) = true) : LockInv holds lock (set_pc pc w p) := by
  intro v hv
  by_cases hvw : v = w
  · rw [set_pc, if_pos hvw] at hv
    rw [hvw]
    exact h w (hp hv)
  · rw [set_pc, if_neg hvw] at hv
    exact h v hv

/-- Under the lock discipline two workers inside critical sections are the
same worker. -/
theorem LockInv.exclusive {P : Type} {holds : P → Bool} {lock : Option Nat} {pc : Nat → P}
    (h : LockInv holds lock pc) (a b : Nat) (ha : holds (pc a) = true)
    (hb : holds (pc b) = true) : a = b := by
  have h1 := h a ha
  have h2 := h b hb
  rw [h1] at h2
  exact Option.some.inj h2

namespace Task

/-- Every statement of a worker of `fractaltask.c` keeps the lock discipline. -/
theorem stmt_lockInv (thread : thread_args) (width height : Nat) (started : List Nat)
    (s : Sys) (w : Nat) (h : LockInv PC.holds s.lock s.pc) :
    LockInv PC.holds (stmt thread width height started s w).lock
      (stmt thread width height started s w).pc := by
  by_cases hw : w ∈ started
  · rw [stmt, if_pos hw]
    cases hpc : s.pc w with
    | lock_claim =>
      dsimp only
      by_cases hl : s.lock = none
      · rw [if_pos hl]
        exact h.acquire hl w _
      · rw [if_neg hl]
        exact h
    | scan =>
      exact h.internal w _ (fun _ => by rw [hpc]; rfl)
    | unlock_claim x y =>
      exact h.release w (by rw [hpc]; rfl) _ rfl
    | test x y =>
      dsimp only
      split
      · exact h.internal w _ (fun hh => by simp [PC.holds] at hh)
      · exact h.internal w _ (fun hh => by simp [PC.holds] at hh)
    | tile_head x y i j =>
      dsimp only
      split
      · split
        · exact h.internal w _ (fun hh => by simp [PC.holds] at hh)
        · exact h.internal w _ (fun hh => by simp [PC.holds] at hh)
      · exact h.internal w _ (fun hh => by simp [PC.holds] at hh)
    | compute x y i j =>
      exact h.internal w _ (fun hh => by simp [PC.holds] at hh)
    | lock_write x y i j c =>
      dsimp only
      by_cases hl : s.lock = none
      · rw [if_pos hl]
        exact h.acquire hl w _
      · rw [if_neg hl]
        exact h
    | color x y i j c =>
      exact h.internal w _ (fun _ => by rw [hpc]; rfl)
    | point x y i j c =>
      exact h.internal w _ (fun _ => by rw [hpc]; rfl)
    | unlock_write x y i j =>
      exact h.release w (by rw [hpc]; rfl) _ rfl
    | exited => exact h
  · rw [stmt, if_neg hw]
    exact h

end Task


/-- A property of every program point still holds after one worker moved to a
point with the property. -/
theorem forall_set_pc {P : Type} (Q : P → Prop) (pc : Nat → P) (w : Nat) (p : P)
    (hall : ∀ v, Q (pc v)) (hp : Q p) : ∀ v, Q (set_pc pc w p v) := by
  intro v
  by_cases hvw : v = w
  · rw [set_pc, if_pos hvw]; exact hp
  · rw [set_pc, if_neg hvw]; exact hall v

namespace Task

/-- Every statement of a worker of `fractaltask.c` keeps the invariant of the
statement-level pass. -/
theorem stmt_inv (thread : thread_args) (width height : Nat) (started : List Nat)
    (s : Sys) (w : Nat) (h : SysInv thread width height s) :
    SysInv thread width height (stmt thread width height started s w) := by
  obtain ⟨hlock, hcomp, hpen, hsurf⟩ := h
  refine ⟨stmt_lockInv thread width height started s w hlock, ?_⟩
  by_cases hw : w ∈ started
  · rw [stmt, if_pos hw]
    cases hpc : s.pc w with
    | lock_claim =>
      dsimp only
      split
      · exact ⟨forall_set_pc _ _ _ _ hcomp trivial, forall_set_pc _ _ _ _ hpen trivial, hsurf⟩
      · exact ⟨hcomp, hpen, hsurf⟩
    | scan =>
      exact ⟨forall_set_pc _ _ _ _ hcomp trivial, forall_set_pc _ _ _ _ hpen trivial, hsurf⟩
    | unlock_claim x y =>
      exact ⟨forall_set_pc _ _ _ _ hcomp trivial, forall_set_pc _ _ _ _ hpen trivial, hsurf⟩
    | test x y =>
      dsimp only
      split
      · exact ⟨forall_set_pc _ _ _ _ hcomp trivial, forall_set_pc _ _ _ _ hpen trivial, hsurf⟩
      · exact ⟨forall_set_pc _ _ _ _ hcomp trivial, forall_set_pc _ _ _ _ hpen trivial, hsurf⟩
    | tile_head x y i j =>
      dsimp only
      split
      · split
        · exact ⟨forall_set_pc _ _ _ _ hcomp trivial, forall_set_pc _ _ _ _ hpen trivial, hsurf⟩
        · exact ⟨forall_set_pc _ _ _ _ hcomp trivial, forall_set_pc _ _ _ _ hpen trivial, hsurf⟩
      · exact ⟨forall_set_pc _ _ _ _ hcomp trivial, forall_set_pc _ _ _ _ hpen trivial, hsurf⟩
    | compute x y i j =>
      exact ⟨forall_set_pc _ _ _ _ hcomp rfl, forall_set_pc _ _ _ _ hpen trivial, hsurf⟩
    | lock_write x y i j c =>
      have hc := hcomp w
      rw [hpc] at hc
      dsimp only
      split
      · exact ⟨forall_set_pc _ _ _ _ hcomp hc, forall_set_pc _ _ _ _ hpen trivial, hsurf⟩
      · exact ⟨hcomp, hpen, hsurf⟩
    | color x y i j c =>
      have hc := hcomp w
      rw [hpc] at hc
      refine ⟨forall_set_pc _ _ _ _ hcomp hc, ?_, hsurf⟩
      intro v
      by_cases hvw : v = w
      · simp only [set_pc, if_pos hvw]
        rfl
      · simp only [set_pc, if_neg hvw]
        cases hv : s.pc v with
        | point x' y' i' j' c' =>
          have h1 := hlock v (by rw [hv]; rfl)
          have h2 := hlock w (by rw [hpc]; rfl)
          rw [h1] at h2
          exact absurd (Option.some.inj h2) hvw
        | _ => trivial
    | point x y i j c =>
      have hc := hcomp w
      rw [hpc] at hc
      have hp := hpen w
      rw [hpc] at hp
      refine ⟨forall_set_pc _ _ _ _ hcomp trivial, forall_set_pc _ _ _ _ hpen trivial, ?_⟩
      intro wr hwr
      rw [List.mem_append, List.mem_singleton] at hwr
      rcases hwr with hwr | hwr
      · exact hsurf wr hwr
      · rw [hwr]
        show s.pen = _
        rw [show s.pen = c from hp, show c = _ from hc]
        rfl
    | unlock_write x y i j =>
      exact ⟨forall_set_pc _ _ _ _ hcomp trivial, forall_set_pc _ _ _ _ hpen trivial, hsurf⟩
    | exited => exact ⟨hcomp, hpen, hsurf⟩
  · rw [stmt, if_neg hw]
    exact ⟨hcomp, hpen, hsurf⟩

/-- The invariant holds after every schedule of statements. -/
theorem exec_inv (thread : thread_args) (width height : Nat) (started : List Nat)
    (pen : Colour) (sched : List Nat) :
    SysInv thread width height (exec thread width height started pen sched) := by
  unfold exec
  have key : ∀ (l : List Nat) (s : Sys), SysInv thread width height s →
      SysInv thread width height (l.foldl (stmt thread width height started) s) := by
    intro l
    induction l with
    | nil => intro s hs; exact hs
    | cons w ws ih =>
      intro s hs
      rw [List.foldl_cons]
      exact ih _ (stmt_inv thread width height started s w hs)
  apply key
  refine ⟨?_, fun _ => trivial, fun _ => trivial, ?_⟩
  · intro w hw
    simp [init_sys, PC.holds] at hw
  · intro wr hwr
    simp [init_sys] at hwr

end Task

namespace Thread

/-- Every statement of a worker of `fractalthread.c` keeps the invariant of
the statement-level pass. -/
theorem band_stmt_inv (width height : Nat) (xmin xmax ymin ymax : ℚ) (maxiter : Int)
    (num_threads : Nat) (started : List Nat) (s : Sys) (w : Nat)
    (h : SysInv width height xmin xmax ymin ymax maxiter s) :
    SysInv width height xmin xmax ymin ymax maxiter
      (stmt width height xmin xmax ymin ymax maxiter num_threads started s w) := by
  obtain ⟨hlock, hcomp, hpen, hsurf⟩ := h
  by_cases hw : w ∈ started
  · rw [stmt, if_pos hw]
    cases hpc : s.pc w with
    | head j i =>
      dsimp only
      split
      · split
        · exact ⟨hlock.internal w _ (fun hh => by simp [PC.writing] at hh),
            forall_set_pc _ _ _ _ hcomp trivial, forall_set_pc _ _ _ _ hpen trivial, hsurf⟩
        · exact ⟨hlock.internal w _ (fun hh => by simp [PC.writing] at hh),
            forall_set_pc _ _ _ _ hcomp trivial, forall_set_pc _ _ _ _ hpen trivial, hsurf⟩
      · exact ⟨hlock.internal w _ (fun hh => by simp [PC.writing] at hh),
          forall_set_pc _ _ _ _ hcomp trivial, forall_set_pc _ _ _ _ hpen trivial, hsurf⟩
    | compute j i =>
      exact ⟨hlock.internal w _ (fun hh => by simp [PC.writing] at hh),
        forall_set_pc _ _ _ _ hcomp rfl, forall_set_pc _ _ _ _ hpen trivial, hsurf⟩
    | lock_write j i c =>
      have hc := hcomp w
      rw [hpc] at hc
      dsimp only
      by_cases hl : s.lock = none
      · rw [if_pos hl]
        exact ⟨hlock.acquire hl w _, forall_set_pc _ _ _ _ hcomp hc,
          forall_set_pc _ _ _ _ hpen trivial, hsurf⟩
      · rw [if_neg hl]
        exact ⟨hlock, hcomp, hpen, hsurf⟩
    | color j i c =>
      have hc := hcomp w
      rw [hpc] at hc
      refine ⟨hlock.internal w _ (fun _ => by rw [hpc]; rfl),
        forall_set_pc _ _ _ _ hcomp hc, ?_, hsurf⟩
      intro v
      by_cases hvw : v = w
      · simp only [set_pc, if_pos hvw]
        rfl
      · simp only [set_pc, if_neg hvw]
        cases hv : s.pc v with
        | point j' i' c' =>
          have h1 := hlock v (by rw [hv]; rfl)
          have h2 := hlock w (by rw [hpc]; rfl)
          rw [h1] at h2
          exact absurd (Option.some.inj h2) hvw
        | _ => trivial
    | point j i c =>
      have hc := hcomp w
      rw [hpc] at hc
      have hp := hpen w
      rw [hpc] at hp
      refine ⟨hlock.internal w _ (fun _ => by rw [hpc]; rfl),
        forall_set_pc _ _ _ _ hcomp trivial, forall_set_pc _ _ _ _ hpen trivial, ?_⟩
      intro wr hwr
      rw [List.mem_append, List.mem_singleton] at hwr
      rcases hwr with hwr | hwr
      · exact hsurf wr hwr
      · rw [hwr]
        show s.pen = _
        rw [show s.pen = c from hp, show c = _ from hc]
    | unlock_write j i =>
      exact ⟨hlock.release w (by rw [hpc]; rfl) _ rfl,
        forall_set_pc _ _ _ _ hcomp trivial, forall_set_pc _ _ _ _ hpen trivial, hsurf⟩
    | exited => exact ⟨hlock, hcomp, hpen, hsurf⟩
  · rw [stmt, if_neg hw]
    exact ⟨hlock, hcomp, hpen, hsurf⟩

/-- The invariant holds after every schedule of statements. -/
theorem band_exec_inv (width height : Nat) (xmin xmax ymin ymax : ℚ) (maxiter : Int)
    (num_threads : Nat) (started : List Nat) (pen : Colour) (sched : List Nat) :
    SysInv width height xmin xmax ymin ymax maxiter
      (exec width height xmin xmax ymin ymax maxiter num_threads started pen sched) := by
  unfold exec
  have key : ∀ (l : List Nat) (s : Sys), SysInv width height xmin xmax ymin ymax maxiter s →
      SysInv width height xmin xmax ymin ymax maxiter
        (l.foldl (stmt width height xmin xmax ymin ymax maxiter num_threads started) s) := by
    intro l
    induction l with
    | nil => intro s hs; exact hs
    | cons w ws ih =>
      intro s hs
      rw [List.foldl_cons]
      exact ih _ (band_stmt_inv width height xmin xmax ymin ymax maxiter num_threads started
        s w hs)
  apply key
  refine ⟨?_, fun _ => trivial, fun _ => trivial, ?_⟩
  · intro w hw
    simp [init_sys, PC.writing] at hw
  · intro wr hwr
    simp [init_sys] at hwr

end Thread

/-- In `fractaltask.c` a statement that draws a point, sets the colour of the
library or changes the task table is executed by the owner of the mutex. -/
theorem Task.stmt_effect_locked (thread : Task.thread_args) (width height : Nat)
    (started : List Nat) (s : Task.Sys) (w : Nat)
    (h : LockInv Task.PC.holds s.lock s.pc)
    (hne : (Task.stmt thread width height started s w).surface ≠ s.surface ∨
      (Task.stmt thread width height started s w).pen ≠ s.pen ∨
      (Task.stmt thread width height started s w).tasks ≠ s.tasks) :
    s.lock = some w := by
  by_cases hw : w ∈ started
  · rw [Task.stmt, if_pos hw] at hne
    cases hpc : s.pc w with
    | scan => exact h w (by rw [hpc]; rfl)
    | color x y i j c => exact h w (by rw [hpc]; rfl)
    | point x y i j c => exact h w (by rw [hpc]; rfl)
    | lock_claim => rw [hpc] at hne; dsimp only at hne; split at hne <;> simp at hne
    | lock_write x y i j c => rw [hpc] at hne; dsimp only at hne; split at hne <;> simp at hne
    | test x y => rw [hpc] at hne; dsimp only at hne; split at hne <;> simp at hne
    | tile_head x y i j =>
      rw [hpc] at hne; dsimp only at hne
      split at hne
      · split at hne <;> simp at hne
      · simp at hne
    | unlock_claim x y => rw [hpc] at hne; simp at hne
    | compute x y i j => rw [hpc] at hne; simp at hne
    | unlock_write x y i j => rw [hpc] at hne; simp at hne
    | exited => rw [hpc] at hne; simp at hne
  · rw [Task.stmt, if_neg hw] at hne
    simp at hne

/-- In `fractalthread.c` a statement that draws a point or sets the colour of
the library is executed by the owner of the mutex. -/
theorem Thread.band_stmt_effect_locked (width height : Nat) (xmin xmax ymin ymax : ℚ)
    (maxiter : Int) (num_threads : Nat) (started : List Nat) (s : Thread.Sys) (w : Nat)
    (h : LockInv Thread.PC.writing s.lock s.pc)
    (hne : (Thread.stmt width height xmin xmax ymin ymax maxiter num_threads started s w).surface
        ≠ s.surface ∨
      (Thread.stmt width height xmin xmax ymin ymax maxiter num_threads started s w).pen
        ≠ s.pen) :
    s.lock = some w := by
  by_cases hw : w ∈ started
  · rw [Thread.stmt, if_pos hw] at hne
    cases hpc : s.pc w with
    | color j i c => exact h w (by rw [hpc]; rfl)
    | point j i c => exact h w (by rw [hpc]; rfl)
    | head j i =>
      rw [hpc] at hne; dsimp only at hne
      split at hne
      · split at hne <;> simp at hne
      · simp at hne
    | lock_write j i c => rw [hpc] at hne; dsimp only at hne; split at hne <;> simp at hne
    | compute j i => rw [hpc] at hne; simp at hne
    | unlock_write j i => rw [hpc] at hne; simp at hne
    | exited => rw [hpc] at hne; simp at hne
  · rw [Thread.stmt, if_neg hw] at hne
    simp at hne

/-- A worker inside a write pair or a tile claim is inside a critical
section. -/
theorem Task.holds_of_writing_or_claiming (p : Task.PC)
    (h : p.writing = true ∨ p.claiming = true) : p.holds = true := by
  cases p <;> simp [Task.PC.writing, Task.PC.claiming, Task.PC.holds] at h ⊢

/-- Both kinds of critical section are reached: after the schedule
`0,0,0,1,1,0,0,0,0,1,0,0` of two task workers worker 0 is inside a write pair,
and after `0,0,0,1` worker 1 is inside a tile claim. -/
theorem Task.exec_reaches_sections :
    ((Task.exec ⟨-3/2, 1/2, -1, 1, 500, 2⟩ 40 20 [0, 1] ⟨0, 0, 0⟩
      [0, 0, 0, 1, 1, 0, 0, 0, 0, 1, 0, 0]).pc 0).writing = true ∧
    ((Task.exec ⟨-3/2, 1/2, -1, 1, 500, 2⟩ 40 20 [0, 1] ⟨0, 0, 0⟩
      [0, 0, 0, 1]).pc 1).claiming = true ∧
    ((Thread.exec 640 480 (-3/2) (1/2) (-1) 1 500 2 [0, 1] ⟨0, 0, 0⟩
      [0, 0, 0, 1, 1, 0]).pc 0).writing = true := by
  refine ⟨by decide, by decide, by decide⟩

/-- C12: during a render pass, after any sequence of statements of any set of
workers: in `fractaltask.c` a worker inside a write pair (`gfx_color`,
`gfx_point`) or inside a tile claim owns the mutex `lock`, so no two such
sections of different workers are in progress at the same time, and every
statement that draws a point, sets the colour or changes the task table is
executed by the owner of the mutex; in `fractalthread.c` the same holds for
the write pairs. -/
theorem write_pairs_exclusive (W H : Nat) (xmin xmax ymin ymax : ℚ) (maxiter : Int) (N : Nat)
    (started : List Nat) (pen : Colour) (sched : List Nat) :
    (∀ w, ((Task.exec ⟨xmin, xmax, ymin, ymax, maxiter, N⟩ W H started pen sched).pc
          w).writing = true ∨
        ((Task.exec ⟨xmin, xmax, ymin, ymax, maxiter, N⟩ W H started pen sched).pc
          w).claiming = true →
      (Task.exec ⟨xmin, xmax, ymin, ymax, maxiter, N⟩ W H started pen sched).lock = some w) ∧
    (∀ a b,
      (((Task.exec ⟨xmin, xmax, ymin, ymax, maxiter, N⟩ W H started pen sched).pc
          a).writing = true ∨
        ((Task.exec ⟨xmin, xmax, ymin, ymax, maxiter, N⟩ W H started pen sched).pc
          a).claiming = true) →
      (((Task.exec ⟨xmin, xmax, ymin, ymax, maxiter, N⟩ W H started pen sched).pc
          b).writing = true ∨
        ((Task.exec ⟨xmin, xmax, ymin, ymax, maxiter, N⟩ W H started pen sched).pc
          b).claiming = true) →
      a = b) ∧
    (∀ w,
      (Task.stmt ⟨xmin, xmax, ymin, ymax, maxiter, N⟩ W H started
          (Task.exec ⟨xmin, xmax, ymin, ymax, maxiter, N⟩ W H started pen sched) w).surface ≠
        (Task.exec ⟨xmin, xmax, ymin, ymax, maxiter, N⟩ W H started pen sched).surface ∨
      (Task.stmt ⟨xmin, xmax, ymin, ymax, maxiter, N⟩ W H started
          (Task.exec ⟨xmin, xmax, ymin, ymax, maxiter, N⟩ W H started pen sched) w).pen ≠
        (Task.exec ⟨xmin, xmax, ymin, ymax, maxiter, N⟩ W H started pen sched).pen ∨
      (Task.stmt ⟨xmin, xmax, ymin, ymax, maxiter, N⟩ W H started
          (Task.exec ⟨xmin, xmax, ymin, ymax, maxiter, N⟩ W H started pen sched) w).tasks ≠
        (Task.exec ⟨xmin, xmax, ymin, ymax, maxiter, N⟩ W H started pen sched).tasks →
      (Task.exec ⟨xmin, xmax, ymin, ymax, maxiter, N⟩ W H started pen sched).lock = some w) ∧
    (∀ w, ((Thread.exec W H xmin xmax ymin ymax maxiter N started pen sched).pc
          w).writing = true →
      (Thread.exec W H xmin xmax ymin ymax maxiter N started pen sched).lock = some w) ∧
    (∀ a b,
      ((Thread.exec W H xmin xmax ymin ymax maxiter N started pen sched).pc a).writing = true →
      ((Thread.exec W H xmin xmax ymin ymax maxiter N started pen sched).pc b).writing = true →
      a = b) ∧
    (∀ w,
      (Thread.stmt W H xmin xmax ymin ymax maxiter N started
          (Thread.exec W H xmin xmax ymin ymax maxiter N started pen sched) w).surface ≠
        (Thread.exec W H xmin xmax ymin ymax maxiter N started pen sched).surface ∨
      (Thread.stmt W H xmin xmax ymin ymax maxiter N started
          (Thread.exec W H xmin xmax ymin ymax maxiter N started pen sched) w).pen ≠
        (Thread.exec W H xmin xmax ymin ymax maxiter N started pen sched).pen →
      (Thread.exec W H xmin xmax ymin ymax maxiter N started pen sched).lock = some w) := by
  have hT := (Task.exec_inv ⟨xmin, xmax, ymin, ymax, maxiter, N⟩ W H started pen sched).1
  have hS := (Thread.band_exec_inv W H xmin xmax ymin ymax maxiter N started pen sched).1
  refine ⟨?_, ?_, ?_, ?_, ?_, ?_⟩
  · intro w hw
    exact hT w (Task.holds_of_writing_or_claiming _ hw)
  · intro a b ha hb
    exact hT.exclusive a b (Task.holds_of_writing_or_claiming _ ha)
      (Task.holds_of_writing_or_claiming _ hb)
  · intro w hne
    exact Task.stmt_effect_locked _ W H started _ w hT hne
  · intro w hw
    exact hS w hw
  · intro a b ha hb
    exact hS.exclusive a b ha hb
  · intro w hne
    exact Thread.band_stmt_effect_locked W H xmin xmax ymin ymax maxiter N started _ w hS hne

end Fractal
